import Mathlib

/-!
Verification of the core CRUD + reporting logic of `app_nutri.py`
(a single-file PySide6/SQLite client-management application).

The embedding is shallow: the SQLite database is a pair of row lists plus
the AUTOINCREMENT high-water marks, each Qt form widget is a field of a
`Form` structure, and every handler (`save_client`, `update_selected`,
`fill_form_from_db`, `export_csv`, `import_csv`, `export_pdf`,
`compose_week_message`, `clear_form`, `human_date`) becomes a pure Lean
function from the incoming state to the resulting state.  CSV files are
modelled at the record level (a list of field-string lists): the `csv`
module's writer/reader round-trips arbitrary field strings, so quoting is
left to that external library, while the value-to-string conversions the
program itself performs (`str`, `int`, `or`-defaults) are modelled
explicitly.  Python `datetime.date` values are triples of integers; their
comparison is modelled by the usual y/m/d key, which on the valid dates a
`datetime.date` can hold coincides with Python's ordering.
-/

namespace AppNutri

/-! ## Decimal rendering and parsing (Python `str`/`int` on integers)

`natToChars` renders a natural number in decimal exactly as Python's
`str`; `pyNatChars`/`pyIntChars` parse decimal strings the way `int(...)`
does on the strings this program produces (an optional minus sign followed
by one or more ASCII digits; other accepted Python spellings such as
surrounding whitespace or underscores never arise here). -/

def digitChar : Nat → Char
  | 0 => '0' | 1 => '1' | 2 => '2' | 3 => '3' | 4 => '4'
  | 5 => '5' | 6 => '6' | 7 => '7' | 8 => '8' | _ => '9'

def digitVal (c : Char) : Option Nat :=
  if 48 ≤ c.toNat ∧ c.toNat ≤ 57 then some (c.toNat - 48) else none

/-- Decimal digits of `n`, most significant first, computed with a fuel
argument (any fuel above `n` gives the same answer) so that the definition
is structurally recursive and evaluates inside the kernel. -/
def natToCharsFuel : Nat → Nat → List Char
  | 0, _ => []
  | fuel + 1, n =>
    if n < 10 then [digitChar n]
    else natToCharsFuel fuel (n / 10) ++ [digitChar (n % 10)]

def natToChars (n : Nat) : List Char := natToCharsFuel (n + 1) n

theorem natToCharsFuel_irrel : ∀ f₁ : Nat, ∀ n : Nat, n < f₁ → ∀ f₂ : Nat, n < f₂ →
    natToCharsFuel f₁ n = natToCharsFuel f₂ n := by
  intro f₁
  induction f₁ with
  | zero => intro n h; omega
  | succ f ih =>
    intro n hn f₂ hn₂
    cases f₂ with
    | zero => omega
    | succ g =>
      show (if n < 10 then [digitChar n] else natToCharsFuel f (n / 10) ++ [digitChar (n % 10)]) =
        (if n < 10 then [digitChar n] else natToCharsFuel g (n / 10) ++ [digitChar (n % 10)])
      by_cases h10 : n < 10
      · rw [if_pos h10, if_pos h10]
      · rw [if_neg h10, if_neg h10]
        have hlt : n / 10 < n := Nat.div_lt_self (by omega) (by omega)
        rw [ih (n / 10) (by omega) g (by omega)]

/-- Unfolding equation for `natToChars` without the fuel. -/
theorem natToChars_eq (n : Nat) :
    natToChars n = if n < 10 then [digitChar n] else natToChars (n / 10) ++ [digitChar (n % 10)] := by
  show natToCharsFuel (n + 1) n = _
  show (if n < 10 then [digitChar n] else natToCharsFuel n (n / 10) ++ [digitChar (n % 10)]) = _
  by_cases h10 : n < 10
  · rw [if_pos h10, if_pos h10]
  · rw [if_neg h10, if_neg h10]
    have hlt : n / 10 < n := Nat.div_lt_self (by omega) (by omega)
    rw [natToCharsFuel_irrel n (n / 10) (by omega) (n / 10 + 1) (by omega)]
    rfl

def parseDigits : Nat → List Char → Option Nat
  | acc, [] => some acc
  | acc, c :: cs =>
    match digitVal c with
    | some d => parseDigits (acc * 10 + d) cs
    | none => none

def pyNatChars (l : List Char) : Option Nat :=
  if l = [] then none else parseDigits 0 l

def intToChars (i : Int) : List Char :=
  if i < 0 then '-' :: natToChars i.natAbs else natToChars i.toNat

def pyIntChars (l : List Char) : Option Int :=
  if l.head? = some '-' then
    match pyNatChars l.tail with
    | some n => some (-(n : Int))
    | none => none
  else
    match pyNatChars l with
    | some n => some ((n : Int))
    | none => none

def natStr (n : Nat) : String := ⟨natToChars n⟩

def intStr (i : Int) : String := ⟨intToChars i⟩

def pyIntS (s : String) : Option Int := pyIntChars s.data

theorem digitVal_digitChar {n : Nat} (h : n < 10) : digitVal (digitChar n) = some n := by
  interval_cases n <;> decide

theorem digitVal_ne_dash {n : Nat} (h : n < 10) : digitChar n ≠ '-' := by
  interval_cases n <;> decide

theorem parseDigits_append (acc : Nat) (l₁ l₂ : List Char) :
    parseDigits acc (l₁ ++ l₂) =
      match parseDigits acc l₁ with
      | some a => parseDigits a l₂
      | none => none := by
  induction l₁ generalizing acc with
  | nil => simp [parseDigits]
  | cons c cs ih =>
    simp only [List.cons_append, parseDigits]
    cases digitVal c with
    | none => rfl
    | some d => exact ih (acc * 10 + d)

theorem natToChars_ne_nil (n : Nat) : natToChars n ≠ [] := by
  rw [natToChars_eq]
  split
  · simp
  · simp

/-- Every character an unsigned decimal rendering contains is a digit. -/
theorem natToChars_digits (n : Nat) : ∀ c ∈ natToChars n, ∃ d, d < 10 ∧ c = digitChar d := by
  induction n using Nat.strong_induction_on with
  | _ n ih =>
    rw [natToChars_eq]
    split
    · rename_i h
      intro c hc
      simp at hc
      exact ⟨n, h, hc⟩
    · rename_i h
      intro c hc
      simp at hc
      rcases hc with hc | hc
      · exact ih (n / 10) (Nat.div_lt_self (by omega) (by omega)) c hc
      · exact ⟨n % 10, Nat.mod_lt _ (by omega), hc⟩

theorem parseDigits_natToChars (n : Nat) :
    ∀ acc, parseDigits acc (natToChars n) = some (acc * 10 ^ (natToChars n).length + n) := by
  induction n using Nat.strong_induction_on with
  | _ n ih =>
    intro acc
    rw [natToChars_eq]
    split
    · rename_i h
      simp [parseDigits, digitVal_digitChar h]
    · rename_i h
      rw [parseDigits_append]
      rw [ih (n / 10) (Nat.div_lt_self (by omega) (by omega)) acc]
      simp only [parseDigits, digitVal_digitChar (Nat.mod_lt n (by omega) : n % 10 < 10)]
      simp only [List.length_append, List.length_singleton]
      congr 1
      have hpow : 10 ^ ((natToChars (n / 10)).length + 1) = 10 ^ (natToChars (n / 10)).length * 10 := by
        ring
      rw [hpow]
      have := Nat.div_add_mod n 10
      ring_nf
      omega

theorem pyNatChars_natToChars (n : Nat) : pyNatChars (natToChars n) = some n := by
  unfold pyNatChars
  rw [if_neg (natToChars_ne_nil n)]
  simpa using parseDigits_natToChars n 0

theorem pyIntChars_natToChars (n : Nat) : pyIntChars (natToChars n) = some (n : Int) := by
  have hdig := natToChars_digits n
  have hne := natToChars_ne_nil n
  unfold pyIntChars
  cases hl : natToChars n with
  | nil => exact absurd hl hne
  | cons c cs =>
    have hc : ∃ d, d < 10 ∧ c = digitChar d := hdig c (by rw [hl]; exact List.mem_cons_self _ _)
    obtain ⟨d, hd, rfl⟩ := hc
    have hnd : digitChar d ≠ '-' := digitVal_ne_dash hd
    have hparse : pyNatChars (digitChar d :: cs) = some n := by
      rw [← hl]; exact pyNatChars_natToChars n
    rw [if_neg (by simp [hnd])]
    rw [hparse]

theorem pyIntChars_intToChars (i : Int) : pyIntChars (intToChars i) = some i := by
  unfold intToChars
  split
  · rename_i h
    show pyIntChars ('-' :: natToChars i.natAbs) = some i
    unfold pyIntChars
    rw [if_pos (by simp)]
    simp only [List.tail_cons, pyNatChars_natToChars]
    congr 1
    omega
  · rename_i h
    rw [pyIntChars_natToChars]
    congr 1
    omega

theorem pyIntS_intStr (i : Int) : pyIntS (intStr i) = some i := by
  unfold pyIntS intStr
  exact pyIntChars_intToChars i

/-- Zero-padding to a fixed width, as Qt's `yyyy`/`MM`/`dd` and Python's
`{:02d}` produce for non-negative values. -/
def padZeros (w : Nat) (l : List Char) : List Char :=
  List.replicate (w - l.length) '0' ++ l

theorem parseDigits_zeros (k : Nat) (l : List Char) :
    parseDigits 0 (List.replicate k '0' ++ l) = parseDigits 0 l := by
  induction k with
  | zero => simp
  | succ k ih =>
    simp only [List.replicate_succ, List.cons_append]
    show parseDigits (0 * 10 + 0) _ = _
    simpa using ih

theorem pyIntChars_padZeros (w : Nat) (n : Nat) :
    pyIntChars (padZeros w (natToChars n)) = some (n : Int) := by
  unfold padZeros
  cases hk : w - (natToChars n).length with
  | zero => simpa using pyIntChars_natToChars n
  | succ k =>
    unfold pyIntChars
    rw [if_neg (by simp [List.replicate_succ])]
    have hne : List.replicate (k+1) '0' ++ natToChars n ≠ [] := by
      simp [List.replicate_succ]
    unfold pyNatChars
    rw [if_neg hne, parseDigits_zeros]
    have := pyNatChars_natToChars n
    unfold pyNatChars at this
    rw [if_neg (natToChars_ne_nil n)] at this
    rw [this]

theorem padZeros_digits (w : Nat) (n : Nat) :
    ∀ c ∈ padZeros w (natToChars n), ∃ d, d < 10 ∧ c = digitChar d := by
  intro c hc
  unfold padZeros at hc
  rw [List.mem_append] at hc
  rcases hc with hc | hc
  · rw [List.mem_replicate] at hc
    exact ⟨0, by omega, hc.2⟩
  · exact natToChars_digits n c hc

/-! ## Python `str.strip` and `str.replace` -/

/-- Characters `str.strip()` removes (the ASCII whitespace ones; the clients'
names, numbers and notes this program strips never contain the non-ASCII
whitespace code points `strip` also handles). -/
def pyWs (c : Char) : Bool :=
  c = ' ' || c = '\t' || c = '\n' || c = '\r' || c = '\x0b' || c = '\x0c'

def pyStripChars (l : List Char) : List Char :=
  ((l.dropWhile pyWs).reverse.dropWhile pyWs).reverse

def pyStrip (s : String) : String := ⟨pyStripChars s.data⟩

/-- Embedding of Python `str.replace(pat, rep)`: replaces every
non-overlapping occurrence, scanning left to right.  The fuel argument
(any value at least the list length works) keeps the recursion structural
so the function evaluates inside the kernel. -/
def replCharsFuel (pat rep : List Char) : Nat → List Char → List Char
  | 0, l => l
  | _ + 1, [] => []
  | fuel + 1, c :: rest =>
    if pat ≠ [] ∧ List.isPrefixOf pat (c :: rest) then
      rep ++ replCharsFuel pat rep fuel (List.drop (pat.length - 1) rest)
    else
      c :: replCharsFuel pat rep fuel rest

def pyReplace (s pat rep : String) : String :=
  ⟨replCharsFuel pat.data rep.data s.data.length s.data⟩

/-! ## Calendar dates

A Python `datetime.date` (and a Qt `QDate`) is a year/month/day triple.
`datetime.date` admits years 1..9999 and validates the day against the
Gregorian month length; comparisons order dates chronologically, which on
such triples is the lexicographic y/m/d order, captured by `dateKey`. -/

structure Ymd where
  y : Int
  m : Int
  d : Int
deriving DecidableEq, Repr

def isLeap (y : Int) : Bool := y % 4 = 0 && (y % 100 ≠ 0 || y % 400 = 0)

def daysInMonth (y m : Int) : Int :=
  if m = 2 then (if isLeap y then 29 else 28)
  else if m = 4 ∨ m = 6 ∨ m = 9 ∨ m = 11 then 30
  else 31

/-- Month/day ranges of the Gregorian calendar with a positive year. -/
def validYmd (t : Ymd) : Prop :=
  1 ≤ t.y ∧ 1 ≤ t.m ∧ t.m ≤ 12 ∧ 1 ≤ t.d ∧ t.d ≤ daysInMonth t.y t.m

instance (t : Ymd) : Decidable (validYmd t) := by
  unfold validYmd
  infer_instance

/-- Dates `datetime.date(y, m, d)` accepts without raising. -/
def pyDateOk (t : Ymd) : Prop := validYmd t ∧ t.y ≤ 9999

instance (t : Ymd) : Decidable (pyDateOk t) := by
  unfold pyDateOk
  infer_instance

def dateKey (t : Ymd) : Int := t.y * 10000 + t.m * 100 + t.d

/-- Embedding of `datetime.date` comparison (chronological order). -/
def dateLe (a b : Ymd) : Prop := dateKey a ≤ dateKey b

instance (a b : Ymd) : Decidable (dateLe a b) := by
  unfold dateLe
  infer_instance

def nextDay (t : Ymd) : Ymd :=
  if t.d < daysInMonth t.y t.m then ⟨t.y, t.m, t.d + 1⟩
  else if t.m < 12 then ⟨t.y, t.m + 1, 1⟩
  else ⟨t.y + 1, 1, 1⟩

def prevDay (t : Ymd) : Ymd :=
  if 1 < t.d then ⟨t.y, t.m, t.d - 1⟩
  else if 1 < t.m then ⟨t.y, t.m - 1, daysInMonth t.y (t.m - 1)⟩
  else ⟨t.y - 1, 12, 31⟩

/-- Embedding of `today + datetime.timedelta(days=n)`. -/
def addDays (t : Ymd) (n : Nat) : Ymd := nextDay^[n] t

theorem daysInMonth_bounds (y m : Int) : 28 ≤ daysInMonth y m ∧ daysInMonth y m ≤ 31 := by
  unfold daysInMonth
  split
  · split <;> omega
  · split <;> omega

theorem validYmd_nextDay {t : Ymd} (h : validYmd t) : validYmd (nextDay t) := by
  obtain ⟨h1, h2, h3, h4, h5⟩ := h
  have hb1 := daysInMonth_bounds t.y (t.m + 1)
  have hb2 := daysInMonth_bounds (t.y + 1) 1
  unfold nextDay
  by_cases hc1 : t.d < daysInMonth t.y t.m
  · rw [if_pos hc1]
    unfold validYmd
    dsimp only
    omega
  · rw [if_neg hc1]
    by_cases hc2 : t.m < 12
    · rw [if_pos hc2]
      unfold validYmd
      dsimp only
      omega
    · rw [if_neg hc2]
      unfold validYmd
      dsimp only
      omega

theorem dateKey_lt_nextDay {t : Ymd} (h : validYmd t) : dateKey t < dateKey (nextDay t) := by
  obtain ⟨h1, h2, h3, h4, h5⟩ := h
  have hb := daysInMonth_bounds t.y t.m
  unfold nextDay
  by_cases hc1 : t.d < daysInMonth t.y t.m
  · rw [if_pos hc1]
    unfold dateKey
    dsimp only
    omega
  · rw [if_neg hc1]
    by_cases hc2 : t.m < 12
    · rw [if_pos hc2]
      unfold dateKey
      dsimp only
      omega
    · rw [if_neg hc2]
      unfold dateKey
      dsimp only
      omega

theorem validYmd_addDays {t : Ymd} (h : validYmd t) (n : Nat) : validYmd (addDays t n) := by
  induction n with
  | zero => simpa [addDays] using h
  | succ n ih =>
    unfold addDays at ih ⊢
    rw [Function.iterate_succ_apply']
    exact validYmd_nextDay ih

theorem dateKey_le_addDays {t : Ymd} (h : validYmd t) (n : Nat) :
    dateKey t ≤ dateKey (addDays t n) := by
  induction n with
  | zero => simp [addDays]
  | succ n ih =>
    unfold addDays at ih ⊢
    rw [Function.iterate_succ_apply']
    have := dateKey_lt_nextDay (validYmd_addDays h n)
    unfold addDays at this
    omega

theorem dateKey_addDays_lt_succ {t : Ymd} (h : validYmd t) (n : Nat) :
    dateKey (addDays t n) < dateKey (addDays t (n + 1)) := by
  unfold addDays
  rw [Function.iterate_succ_apply']
  exact dateKey_lt_nextDay (by simpa [addDays] using validYmd_addDays h n)

theorem validYmd_prevDay {t : Ymd} (h : validYmd t) (hy : 2 ≤ t.y) : validYmd (prevDay t) := by
  obtain ⟨h1, h2, h3, h4, h5⟩ := h
  have hb1 := daysInMonth_bounds t.y (t.m - 1)
  have hb2 : daysInMonth (t.y - 1) 12 = 31 := by unfold daysInMonth; norm_num
  unfold prevDay
  by_cases hc1 : 1 < t.d
  · rw [if_pos hc1]
    unfold validYmd
    dsimp only
    omega
  · rw [if_neg hc1]
    by_cases hc2 : 1 < t.m
    · rw [if_pos hc2]
      unfold validYmd
      dsimp only
      omega
    · rw [if_neg hc2]
      unfold validYmd
      dsimp only
      omega

theorem dateKey_prevDay_lt {t : Ymd} (h : validYmd t) : dateKey (prevDay t) < dateKey t := by
  obtain ⟨h1, h2, h3, h4, h5⟩ := h
  have hb := daysInMonth_bounds t.y (t.m - 1)
  unfold prevDay
  by_cases hc1 : 1 < t.d
  · rw [if_pos hc1]
    unfold dateKey
    dsimp only
    omega
  · rw [if_neg hc1]
    by_cases hc2 : 1 < t.m
    · rw [if_pos hc2]
      unfold dateKey
      dsimp only
      omega
    · rw [if_neg hc2]
      unfold dateKey
      dsimp only
      omega

/-! ## Date strings: `s.split("-")`, `human_date`, `str_to_qdate`, `qdate_to_str` -/

/-- Embedding of Python `s.split("-")` on the character list: `""` yields
`[""]`, adjacent separators yield empty parts. -/
def splitDash : List Char → List (List Char)
  | [] => [[]]
  | c :: rest =>
    if c = '-' then [] :: splitDash rest
    else
      match splitDash rest with
      | [] => [[c]]
      | p :: ps => (c :: p) :: ps

theorem splitDash_ne_nil (l : List Char) : splitDash l ≠ [] := by
  cases l with
  | nil => simp [splitDash]
  | cons c rest =>
    unfold splitDash
    split
    · simp
    · split
      · simp
      · simp

theorem splitDash_noDash {l : List Char} (h : ∀ c ∈ l, c ≠ '-') : splitDash l = [l] := by
  induction l with
  | nil => rfl
  | cons c rest ih =>
    unfold splitDash
    rw [if_neg (h c (List.mem_cons_self _ _))]
    rw [ih (fun x hx => h x (List.mem_cons_of_mem _ hx))]

theorem splitDash_cons (c : Char) (rest : List Char) :
    splitDash (c :: rest) =
      if c = '-' then [] :: splitDash rest
      else
        match splitDash rest with
        | [] => [[c]]
        | p :: ps => (c :: p) :: ps := rfl

theorem splitDash_append {a b : List Char} (h : ∀ c ∈ a, c ≠ '-') :
    splitDash (a ++ '-' :: b) = a :: splitDash b := by
  induction a with
  | nil => simp [splitDash]
  | cons c rest ih =>
    simp only [List.cons_append]
    rw [splitDash_cons]
    rw [if_neg (h c (List.mem_cons_self _ _))]
    rw [ih (fun x hx => h x (List.mem_cons_of_mem _ hx))]

/-- Embedding of `y, m, d = map(int, s.split("-"))`: succeeds exactly when the
split yields three parts and each parses as an integer (any other shape makes
the Python unpacking or `int(...)` raise). -/
def parseDate3 (s : String) : Option Ymd :=
  match splitDash s.data with
  | [a, b, c] =>
    match pyIntChars a, pyIntChars b, pyIntChars c with
    | some y, some m, some d => some ⟨y, m, d⟩
    | _, _, _ => none
  | _ => none

/-- Python's `{:02d}` rendering: at least two characters, zero-padded for
values 0..9, plain decimal (sign included) otherwise. -/
def pad2Int (i : Int) : String :=
  if 0 ≤ i ∧ i < 10 then ⟨'0' :: intToChars i⟩ else intStr i

/-- Embedding of `human_date`: renders a parsable `y-m-d` string as
`dd/mm/y` and returns any other string unchanged. -/
def human_date (s : String) : String :=
  match parseDate3 s with
  | some t => pad2Int t.d ++ "/" ++ pad2Int t.m ++ "/" ++ intStr t.y
  | none => s

/-- Dates `QDate(y, m, d)` accepts (the program only ever builds positive
years; QDate's negative-year convention is outside the states exercised). -/
def qdateValid (t : Ymd) : Prop := validYmd t

instance (t : Ymd) : Decidable (qdateValid t) := by
  unfold qdateValid
  infer_instance

/-- Embedding of `str_to_qdate`: parse `y-m-d`, keeping only triples that
form a valid `QDate` (an invalid `QDate()` is `none`). -/
def str_to_qdate (s : String) : Option Ymd :=
  match parseDate3 s with
  | some t => if qdateValid t then some t else none
  | none => none

/-- Qt's `toString("yyyy-MM-dd")` on a valid date: zero-padded fields. -/
def fmtQtDate (t : Ymd) : String :=
  ⟨padZeros 4 (intToChars t.y) ++ '-' :: (padZeros 2 (intToChars t.m) ++ '-' :: padZeros 2 (intToChars t.d))⟩

/-- Embedding of `qdate_to_str`: `""` for an invalid `QDate`. -/
def qdate_to_str (q : Option Ymd) : String :=
  match q with
  | some t => fmtQtDate t
  | none => ""

theorem padZeros_nonneg_digits {i : Int} (hi : 0 ≤ i) (w : Nat) :
    ∀ c ∈ padZeros w (intToChars i), ∃ d, d < 10 ∧ c = digitChar d := by
  unfold intToChars
  rw [if_neg (by omega)]
  exact padZeros_digits w i.toNat

theorem padZeros_nonneg_noDash {i : Int} (hi : 0 ≤ i) (w : Nat) :
    ∀ c ∈ padZeros w (intToChars i), c ≠ '-' := by
  intro c hc
  obtain ⟨d, hd, rfl⟩ := padZeros_nonneg_digits hi w c hc
  exact digitVal_ne_dash hd

theorem pyIntChars_padZeros_nonneg {i : Int} (hi : 0 ≤ i) (w : Nat) :
    pyIntChars (padZeros w (intToChars i)) = some i := by
  unfold intToChars
  rw [if_neg (by omega)]
  rw [pyIntChars_padZeros]
  congr 1
  omega

/-- Parsing inverts Qt's `yyyy-MM-dd` rendering on dates with non-negative
fields. -/
theorem parseDate3_fmtQtDate {t : Ymd} (hy : 0 ≤ t.y) (hm : 0 ≤ t.m) (hd : 0 ≤ t.d) :
    parseDate3 (fmtQtDate t) = some t := by
  unfold parseDate3 fmtQtDate
  show (match splitDash (padZeros 4 (intToChars t.y) ++ '-' :: (padZeros 2 (intToChars t.m) ++ '-' :: padZeros 2 (intToChars t.d))) with
    | [a, b, c] =>
      match pyIntChars a, pyIntChars b, pyIntChars c with
      | some y, some m, some d => some (⟨y, m, d⟩ : Ymd)
      | _, _, _ => none
    | _ => none) = some t
  rw [splitDash_append (padZeros_nonneg_noDash hy 4)]
  rw [splitDash_append (padZeros_nonneg_noDash hm 2)]
  rw [splitDash_noDash (padZeros_nonneg_noDash hd 2)]
  dsimp only
  rw [pyIntChars_padZeros_nonneg hy, pyIntChars_padZeros_nonneg hm, pyIntChars_padZeros_nonneg hd]

theorem str_to_qdate_fmtQtDate {t : Ymd} (h : validYmd t) :
    str_to_qdate (fmtQtDate t) = some t := by
  obtain ⟨h1, h2, h3, h4, h5⟩ := h
  unfold str_to_qdate
  rw [parseDate3_fmtQtDate (by omega) (by omega) (by omega)]
  dsimp only
  rw [if_pos (show qdateValid t from ⟨by omega, by omega, h3, by omega, h5⟩)]

/-! ## Binary string ordering (SQLite `ORDER BY` on TEXT, collation BINARY)

SQLite compares TEXT values by memcmp of their UTF-8 bytes; UTF-8 preserves
code-point order, so the order is the lexicographic order on code points. -/

def charsLeb : List Char → List Char → Bool
  | [], _ => true
  | _ :: _, [] => false
  | a :: as, b :: bs =>
    if a.toNat < b.toNat then true
    else if b.toNat < a.toNat then false
    else charsLeb as bs

def sqliteStrLe (a b : String) : Prop := charsLeb a.data b.data = true

instance (a b : String) : Decidable (sqliteStrLe a b) := by
  unfold sqliteStrLe
  infer_instance

theorem charsLeb_total : ∀ a b : List Char, charsLeb a b = true ∨ charsLeb b a = true := by
  intro a
  induction a with
  | nil => intro b; left; rfl
  | cons x xs ih =>
    intro b
    cases b with
    | nil => right; rfl
    | cons y ys =>
      unfold charsLeb
      rcases Nat.lt_trichotomy x.toNat y.toNat with h | h | h
      · left
        rw [if_pos h]
      · rw [if_neg (by omega), if_neg (by omega), if_neg (by omega), if_neg (by omega)]
        exact ih ys
      · right
        rw [if_pos h]

theorem charsLeb_trans : ∀ a b c : List Char,
    charsLeb a b = true → charsLeb b c = true → charsLeb a c = true := by
  intro a
  induction a with
  | nil => intro b c _ _; rfl
  | cons x xs ih =>
    intro b c hab hbc
    cases b with
    | nil => simp [charsLeb] at hab
    | cons y ys =>
      cases c with
      | nil => simp [charsLeb] at hbc
      | cons z zs =>
        unfold charsLeb at hab hbc ⊢
        by_cases hxy : x.toNat < y.toNat
        · by_cases hyz : y.toNat < z.toNat
          · rw [if_pos (by omega)]
          · rw [if_neg hyz] at hbc
            by_cases hzy : z.toNat < y.toNat
            · rw [if_pos hzy] at hbc
              exact absurd hbc (by simp)
            · rw [if_pos (by omega)]
        · rw [if_neg hxy] at hab
          by_cases hyx : y.toNat < x.toNat
          · rw [if_pos hyx] at hab
            exact absurd hab (by simp)
          · rw [if_neg hyx] at hab
            by_cases hyz : y.toNat < z.toNat
            · rw [if_pos (by omega)]
            · rw [if_neg hyz] at hbc
              by_cases hzy : z.toNat < y.toNat
              · rw [if_pos hzy] at hbc
                exact absurd hbc (by simp)
              · rw [if_neg hzy] at hbc
                rw [if_neg (by omega), if_neg (by omega)]
                exact ih ys zs hab hbc

theorem charsLeb_antisymm : ∀ a b : List Char,
    charsLeb a b = true → charsLeb b a = true → a = b := by
  intro a
  induction a with
  | nil =>
    intro b _ hba
    cases b with
    | nil => rfl
    | cons y ys => simp [charsLeb] at hba
  | cons x xs ih =>
    intro b hab hba
    cases b with
    | nil => simp [charsLeb] at hab
    | cons y ys =>
      unfold charsLeb at hab hba
      by_cases hxy : x.toNat < y.toNat
      · rw [if_neg (by omega), if_pos hxy] at hba
        exact absurd hba (by simp)
      · rw [if_neg hxy] at hab
        by_cases hyx : y.toNat < x.toNat
        · rw [if_pos hyx] at hab
          exact absurd hab (by simp)
        · rw [if_neg hyx] at hab
          rw [if_neg hyx, if_neg hxy] at hba
          have htn : x.toNat = y.toNat := by omega
          have hxev : x = y := by
            rw [← Char.ofNat_toNat x, ← Char.ofNat_toNat y, htn]
          exact hxev ▸ congrArg (List.cons x) (ih ys hab hba)

instance : IsTotal String sqliteStrLe := ⟨fun a b => charsLeb_total a.data b.data⟩

instance : IsTrans String sqliteStrLe :=
  ⟨fun a b c hab hbc => charsLeb_trans a.data b.data c.data hab hbc⟩

instance : IsAntisymm String sqliteStrLe := by
  constructor
  intro a b hab hba
  cases a with
  | mk la =>
    cases b with
    | mk lb =>
      exact congrArg String.mk (charsLeb_antisymm la lb hab hba)

/-- SQLite `COLLATE NOCASE` folds the ASCII letters A-Z to lower case and
then compares binary. -/
def lowerChar (c : Char) : Char :=
  if 65 ≤ c.toNat ∧ c.toNat ≤ 90 then Char.ofNat (c.toNat + 32) else c

def lowerStr (s : String) : String := ⟨s.data.map lowerChar⟩

/-- Case-insensitive name order (`name COLLATE NOCASE ASC`). -/
def nocaseLe (a b : String) : Prop := sqliteStrLe (lowerStr a) (lowerStr b)

instance (a b : String) : Decidable (nocaseLe a b) := by
  unfold nocaseLe
  infer_instance

/-! ## The database (tables `clients` and `appointments`)

Rows are held in rowid (insertion) order, which is the order a `SELECT`
without `ORDER BY` returns.  Both tables are `INTEGER PRIMARY KEY
AUTOINCREMENT`, so the next automatically assigned id is one more than the
largest id ever used — deleting rows never lowers it; the two `next…Id`
fields model that high-water mark (sqlite_sequence + 1).  A column without
`NOT NULL` can hold SQL NULL, modelled with `Option`. -/

structure ClientRow where
  id : Int
  name : String
  age : Option Int
  whatsapp : Option String
  first_consult : Option String
  plan_months : Int
  paid_returns : Int
  rescheduled : Int
  notes : Option String
  hidden : Int
deriving DecidableEq, Repr

structure ApptRow where
  id : Int
  client_id : Int
  date : String
  kind : String
  status : String
deriving DecidableEq, Repr

structure DB where
  clients : List ClientRow
  appts : List ApptRow
  nextClientId : Int
  nextApptId : Int
deriving DecidableEq, Repr

/-- Invariants every state reachable through SQLite satisfies: primary keys
are unique and below the AUTOINCREMENT high-water mark. -/
def WF (db : DB) : Prop :=
  (∀ c ∈ db.clients, c.id < db.nextClientId) ∧
  (∀ a ∈ db.appts, a.id < db.nextApptId) ∧
  (db.clients.map (fun c => c.id)).Nodup ∧
  (db.appts.map (fun a => a.id)).Nodup

instance (db : DB) : Decidable (WF db) := by
  unfold WF
  infer_instance

/-- Rows the query `WHERE client_id=? AND status='agendado'` returns. -/
def scheduledOf (db : DB) (cid : Int) : List ApptRow :=
  db.appts.filter (fun a => a.client_id == cid && a.status == "agendado")

/-- Result of `SELECT date FROM appointments WHERE client_id=? AND
status='agendado' ORDER BY date ASC`. -/
def scheduled_dates_asc (db : DB) (cid : Int) : List String :=
  List.insertionSort sqliteStrLe ((scheduledOf db cid).map (fun a => a.date))

/-! ## The form (`MainWindow` widget state)

`planIdx` is the current index of the non-editable plan combo box whose
items are `["1","2","3","6","12"]`; a spin box holds an integer, a check
box a boolean, the `QDateEdit` a `QDate` (possibly invalid → `none`), and
the upcoming-dates list widget a list of strings. -/

structure Form where
  idText : String
  name : String
  age : Int
  whats : String
  firstDate : Option Ymd
  planIdx : Nat
  paid : Int
  resched : Bool
  hiddenChk : Bool
  notes : String
  nextList : List String
deriving DecidableEq, Repr

def planItems : List String := ["1", "2", "3", "6", "12"]

/-- `QComboBox.currentText()` (the empty string when nothing is selected). -/
def currentPlanText (f : Form) : String := planItems.getD f.planIdx ""

/-- `QComboBox.setCurrentText(s)` on a non-editable combo: selects the first
item matching `s`, and leaves the selection unchanged when no item matches. -/
def comboSetText (idx : Nat) (s : String) : Nat :=
  (List.findIdx? (fun x => x == s) planItems).getD idx

/-- Python truthiness defaults: `v or d` for an integer. -/
def pyOrI (v d : Int) : Int := if v = 0 then d else v

/-- Python `v or d` where `v` is a nullable integer column value. -/
def pyOrOI (v : Option Int) (d : Int) : Int :=
  match v with
  | none => d
  | some i => if i = 0 then d else i

/-- Python `v or d` where `v` is a string. -/
def pyOrS (v d : String) : String := if v = "" then d else v

/-- Python `v or d` where `v` is a nullable string column value. -/
def pyOrOS (v : Option String) (d : String) : String :=
  match v with
  | none => d
  | some s => if s = "" then d else s

/-- A `QSpinBox.setValue` clamps to the widget's range. -/
def spinClamp (lo hi v : Int) : Int := max lo (min hi v)

def b2i (b : Bool) : Int := if b then 1 else 0

/-- The appointment rows a loop of
`INSERT INTO appointments (client_id, date, kind, status) VALUES (?, ?,
'retorno', 'agendado')` creates, with consecutive AUTOINCREMENT ids from
`start`. -/
def freshAppts (start cid : Int) : List String → List ApptRow
  | [] => []
  | d :: ds => ⟨start, cid, d, "retorno", "agendado"⟩ :: freshAppts (start + 1) cid ds

/-- Embedding of `clear_form`: every field reset (the first-consult date edit
is set to the current date); the result does not depend on the previous
form state. -/
def clear_form (today : Ymd) : Form :=
  { idText := "", name := "", age := 0, whats := "", firstDate := some today,
    planIdx := 0, paid := 0, resched := false, hiddenChk := false,
    notes := "", nextList := [] }

/-- What a user-visible action left behind, beyond the new database state. -/
inductive Outcome where
  | ok
  | validationWarn
  | selectionWarn
  | missingFileWarn
  | notConfirmed
  | raised
deriving DecidableEq, Repr

/-- Embedding of `save_client`.  An unparsable combo text would make
`int(...)` raise; the surrounding `with connect_db()` then rolls the
transaction back, so the database is returned unchanged with outcome
`raised`. -/
def save_client (f : Form) (db : DB) : DB × Outcome :=
  let name := pyStrip f.name
  if name = "" then (db, Outcome.validationWarn)
  else
    match pyIntS (currentPlanText f) with
    | none => (db, Outcome.raised)
    | some p =>
      let cid := db.nextClientId
      let row : ClientRow :=
        ⟨cid, name, some f.age, some (pyStrip f.whats), some (qdate_to_str f.firstDate),
         p, f.paid, b2i f.resched, some (pyStrip f.notes), b2i f.hiddenChk⟩
      let news := freshAppts db.nextApptId cid f.nextList
      ({ clients := db.clients ++ [row], appts := db.appts ++ news,
         nextClientId := cid + 1,
         nextApptId := db.nextApptId + f.nextList.length }, Outcome.ok)

/-- Embedding of `update_selected`: overwrite the client row for the
selected id, delete that client's rows with status `'agendado'`, and insert
one fresh `'agendado'`/`'retorno'` row per date in the form list.
`sel` is `current_selected_client_id()`; `None` and id `0` are both falsy. -/
def update_selected (f : Form) (db : DB) (sel : Option Int) : DB × Outcome :=
  match sel with
  | none => (db, Outcome.selectionWarn)
  | some cid =>
    if cid = 0 then (db, Outcome.selectionWarn)
    else
      match pyIntS (currentPlanText f) with
      | none => (db, Outcome.raised)
      | some p =>
        let clients' := db.clients.map (fun c =>
          if c.id == cid then
            { c with name := pyStrip f.name, age := some f.age,
                     whatsapp := some (pyStrip f.whats),
                     first_consult := some (qdate_to_str f.firstDate),
                     plan_months := p, paid_returns := f.paid,
                     rescheduled := b2i f.resched,
                     notes := some (pyStrip f.notes),
                     hidden := b2i f.hiddenChk }
          else c)
        let kept := db.appts.filter (fun a => !(a.client_id == cid && a.status == "agendado"))
        let news := freshAppts db.nextApptId cid f.nextList
        ({ clients := clients', appts := kept ++ news,
           nextClientId := db.nextClientId,
           nextApptId := db.nextApptId + f.nextList.length }, Outcome.ok)

/-- Embedding of `fill_form_from_db`: populate every form field from the
client row (with the `or`-defaults the code applies) and reload the
upcoming list from the scheduled appointments in ascending date order. -/
def fill_form_from_db (f : Form) (db : DB) (cid : Int) : Form :=
  match db.clients.find? (fun c => c.id == cid) with
  | none => f
  | some r =>
    { idText := intStr r.id,
      name := pyOrS r.name "",
      age := spinClamp 0 120 (pyOrOI r.age 0),
      whats := pyOrOS r.whatsapp "",
      firstDate :=
        match str_to_qdate (pyOrOS r.first_consult "") with
        | some t => some t
        | none => f.firstDate,
      planIdx := comboSetText f.planIdx (intStr (pyOrI r.plan_months 2)),
      paid := spinClamp 0 12 (pyOrOI r.paid_returns 0),
      resched := r.rescheduled != 0,
      hiddenChk := r.hidden != 0,
      notes := pyOrOS r.notes "",
      nextList := scheduled_dates_asc db cid }

/-- Value of the `plan_months INTEGER DEFAULT 5` column default in
`ensure_db`'s `CREATE TABLE clients` statement: the value a row created
without an explicit `plan_months` receives. -/
def schemaDefaultPlanMonths : Int := 5

/-! ## CSV export and import

A CSV file is modelled as its list of records (each a list of field
strings): the `csv` module's writer/reader pair round-trips arbitrary
field contents (quoting is its concern, not this program's).  What the
program contributes — `str()` of integers, the empty cell for `None`,
`DictReader` lookup by header name, `int(...)` parses and `or`-defaults —
is modelled explicitly. -/

abbrev CsvFile := List (List String)

def clientsCsvHeader : List String :=
  ["id", "name", "age", "whatsapp", "first_consult", "plan_months",
   "paid_returns", "rescheduled", "notes", "hidden"]

def apptsCsvHeader : List String := ["client_id", "date", "kind", "status"]

/-- How `csv.writer` renders a nullable integer column value. -/
def csvOptInt (v : Option Int) : String :=
  match v with
  | none => ""
  | some i => intStr i

/-- How `csv.writer` renders a nullable text column value. -/
def csvOptStr (v : Option String) : String := v.getD ""

def serialize_client (c : ClientRow) : List String :=
  [intStr c.id, c.name, csvOptInt c.age, csvOptStr c.whatsapp,
   csvOptStr c.first_consult, intStr c.plan_months, intStr c.paid_returns,
   intStr c.rescheduled, csvOptStr c.notes, intStr c.hidden]

def serialize_appt (a : ApptRow) : List String :=
  [intStr a.client_id, a.date, a.kind, a.status]

/-- Embedding of `export_csv` once a file name was chosen: the two written
files, named `fn` and `fn.replace(".csv", "_consultas.csv")`.  Every client
and every appointment row is written, with no filtering; the appointment
file carries no appointment id column. -/
def export_csv (db : DB) (fn : String) : (String × CsvFile) × (String × CsvFile) :=
  ((fn, clientsCsvHeader :: db.clients.map serialize_client),
   (pyReplace fn ".csv" "_consultas.csv", apptsCsvHeader :: db.appts.map serialize_appt))

/-- `csv.DictReader` cell access `row[key]`: position of `key` in the header
row, `None` (`restval`) when the record is shorter than the header. -/
def dictGet (hdr row : List String) (key : String) : Option String :=
  match List.findIdx? (fun h => h == key) hdr with
  | some i => row[i]?
  | none => none

/-- Parse of `int(row[k]) if row[k] else None` (outer `none` = `int` raised). -/
def parseOptIntField (v : Option String) : Option (Option Int) :=
  match v with
  | none => some none
  | some s => if s = "" then some none else (pyIntS s).map some

/-- Parse of `int(row[k] or d)` (`none` = `int` raised). -/
def parseIntFieldOr (v : Option String) (d : Int) : Option Int :=
  match v with
  | none => some d
  | some s => if s = "" then some d else pyIntS s

/-- Value of `row[k] or None`. -/
def parseStrOrNone (v : Option String) : Option String :=
  match v with
  | none => none
  | some s => if s = "" then none else some s

/-- One record of the clients file, as `import_csv` inserts it; `none` means
the insert raises (unparsable integer, or a NULL `name` violating `NOT
NULL`). -/
def parse_import_client (hdr row : List String) : Option ClientRow := do
  let cid ← (dictGet hdr row "id").bind pyIntS
  let nm ← dictGet hdr row "name"
  let ag ← parseOptIntField (dictGet hdr row "age")
  let pm ← parseIntFieldOr (dictGet hdr row "plan_months") 2
  let pr ← parseIntFieldOr (dictGet hdr row "paid_returns") 0
  let rs ← parseIntFieldOr (dictGet hdr row "rescheduled") 0
  let hd ← parseIntFieldOr (dictGet hdr row "hidden") 0
  some ⟨cid, nm, ag, dictGet hdr row "whatsapp",
        parseStrOrNone (dictGet hdr row "first_consult"), pm, pr, rs,
        dictGet hdr row "notes", hd⟩

/-- One record of the appointments file: the four inserted column values.
The files this program writes always carry all four fields as strings; a
record yielding SQL NULL for `date` raises (`NOT NULL`), and the model maps
the remaining (unreachable here) NULL cases to the exception outcome too. -/
def parse_import_appt (hdr row : List String) : Option (Int × String × String × String) := do
  let cid ← (dictGet hdr row "client_id").bind pyIntS
  let dt ← dictGet hdr row "date"
  let kd ← dictGet hdr row "kind"
  let st ← dictGet hdr row "status"
  some (cid, dt, kd, st)

/-- The appointment rows the import loop inserts, with consecutive
AUTOINCREMENT ids from `start` (the file carries no id column). -/
def freshApptRows (start : Int) : List (Int × String × String × String) → List ApptRow
  | [] => []
  | q :: qs => ⟨start, q.1, q.2.1, q.2.2.1, q.2.2.2⟩ :: freshApptRows (start + 1) qs

def optMapList (f : α → Option β) : List α → Option (List β)
  | [] => some []
  | x :: xs =>
    match f x, optMapList f xs with
    | some y, some ys => some (y :: ys)
    | _, _ => none

/-- All records of a `DictReader` pass (a file without a header row yields
no records). -/
def parseClientsFile (file : CsvFile) : Option (List ClientRow) :=
  match file with
  | [] => some []
  | hdr :: rows => optMapList (parse_import_client hdr) rows

def parseApptsFile (file : CsvFile) : Option (List (Int × String × String × String)) :=
  match file with
  | [] => some []
  | hdr :: rows => optMapList (parse_import_appt hdr) rows

/-- New AUTOINCREMENT high-water mark after inserting rows with explicit
ids: each insert raises the sequence to at least the inserted id. -/
def bumpSeq (start : Int) (rows : List ClientRow) : Int :=
  rows.foldl (fun n r => max n (r.id + 1)) start

/-- Embedding of `import_csv` once a file name `fn` was chosen, against the
file system `fs` (name ↦ records) and the user's confirmation answer.  The
companion-file check and the confirmation both happen before any delete.
On the success path both tables are cleared and refilled: client rows keep
the ids from the file, appointment rows get fresh AUTOINCREMENT ids
(their file carries no id column).  A parse failure raises mid-transaction
and `with connect_db()` rolls back, leaving the database unchanged. -/
def import_csv (db : DB) (fs : List (String × CsvFile)) (fn : String)
    (confirm : Bool) : DB × Outcome :=
  let fnAppts := pyReplace fn ".csv" "_consultas.csv"
  if (fs.lookup fnAppts).isNone then (db, Outcome.missingFileWarn)
  else if ¬confirm then (db, Outcome.notConfirmed)
  else
    match fs.lookup fn, fs.lookup fnAppts with
    | some cf, some af =>
      match parseClientsFile cf, parseApptsFile af with
      | some crows, some arows =>
        ({ clients := crows,
           appts := freshApptRows db.nextApptId arows,
           nextClientId := bumpSeq db.nextClientId crows,
           nextApptId := db.nextApptId + arows.length }, Outcome.ok)
      | _, _ => (db, Outcome.raised)
    | _, _ => (db, Outcome.raised)

/-- Export to the default file name followed by import of the two files
just written, with no intervening edits and a confirmed prompt. -/
def csv_round_trip (db : DB) : DB × Outcome :=
  let e := export_csv db "clientes.csv"
  import_csv db [e.1, e.2] "clientes.csv" true

/-! ## Weekly digest (`compose_week_message`) -/

/-- The in-window scheduled dates of one client, already rendered with
`human_date`: parse each date string, skip the ones `int(...)` or
`datetime.date(...)` would raise on, and keep those with
`today <= date_obj <= today + 7 days` (both ends inclusive). -/
def appts_in_week (today : Ymd) (dates : List String) : List String :=
  dates.filterMap (fun s =>
    match parseDate3 s with
    | none => none
    | some t =>
      if pyDateOk t ∧ dateLe today t ∧ dateLe t (addDays today 7) then some (human_date s)
      else none)

/-- Clients the digest query returns: `WHERE hidden=0 ORDER BY name COLLATE
NOCASE ASC`. -/
def digest_clients (db : DB) : List ClientRow :=
  List.insertionSort (fun a b => nocaseLe a.name b.name)
    (db.clients.filter (fun c => c.hidden == 0))

/-- The per-client blocks of the digest: one entry per non-hidden client
whose in-window list is non-empty, pairing the client row with its
rendered in-window dates. -/
def week_blocks (db : DB) (today : Ymd) : List (ClientRow × List String) :=
  (digest_clients db).filterMap (fun c =>
    let iw := appts_in_week today (scheduled_dates_asc db c.id)
    if iw.isEmpty then none else some (c, iw))

/-- Python `v or d` rendered into an f-string, for a nullable integer
(`0` and `None` both fall back to the default). -/
def pyOrIntStr (v : Option Int) (d : String) : String :=
  match v with
  | none => d
  | some i => if i = 0 then d else intStr i

/-- The lines a non-empty block contributes to the message. -/
def block_lines (b : ClientRow × List String) : List String :=
  ["",
   "Nome: " ++ b.1.name,
   "Idade: " ++ pyOrIntStr b.1.age "-",
   "WhatsApp: " ++ pyOrOS b.1.whatsapp "-",
   "Primeira consulta: " ++ (match b.1.first_consult with
     | some s => if s = "" then "-" else human_date s
     | none => "-"),
   "Próximas (7 dias): " ++ String.intercalate ", " b.2,
   "Plano: " ++ intStr b.1.plan_months ++ " meses | Retornos pagos: " ++ intStr b.1.paid_returns,
   "Obs: " ++ pyOrOS b.1.notes "-",
   "[ ------------------------- ]"]

/-- Embedding of `compose_week_message`. -/
def compose_week_message (db : DB) (today : Ymd) : String :=
  let blocks := week_blocks db today
  let lines :=
    "[ === CONSULTAS DA SEMANA === ]" ::
      (if blocks.isEmpty then ["Sem consultas nos próximos 7 dias."]
       else blocks.flatMap block_lines)
  String.intercalate "\n" lines

/-! ## PDF report (`export_pdf`) -/

/-- The `ORDER BY hidden ASC, name COLLATE NOCASE ASC` relation used by the
table projection and the PDF query. -/
def tableLe (a b : ClientRow) : Prop :=
  a.hidden < b.hidden ∨ (a.hidden = b.hidden ∧ nocaseLe a.name b.name)

instance (a b : ClientRow) : Decidable (tableLe a b) := by
  unfold tableLe
  infer_instance

/-- Rows of the table projection (`ClientsTableModel.load`): all clients,
visible (hidden=0) ones first, then by case-folded name. -/
def table_rows (db : DB) : List ClientRow := List.insertionSort tableLe db.clients

/-- One body row of the PDF table for client `c` (the eight cell texts, in
column order). -/
def pdf_row (db : DB) (c : ClientRow) : List String :=
  let dates := (scheduled_dates_asc db c.id).map human_date
  [c.name ++ (if c.hidden ≠ 0 then " (OCULTO)" else ""),
   pyOrIntStr c.age "",
   pyOrOS c.whatsapp "",
   human_date (pyOrOS c.first_consult ""),
   if dates.isEmpty then "-" else String.intercalate ", " dates,
   intStr c.plan_months,
   intStr c.paid_returns,
   pyOrOS c.notes "-"]

/-- The `data` list `export_pdf` hands to the PDF table: the header row
followed by one row per client in table order. -/
def pdf_data (db : DB) : List (List String) :=
  ["Cliente", "Idade", "WhatsApp", "Primeira Consulta", "Próximas", "Plano",
   "Retornos pagos", "Obs"] :: (table_rows db).map (pdf_row db)

/-! ## Helper lemmas -/

theorem natToChars_small {n : Nat} (h : n < 10) : natToChars n = [digitChar n] := by
  rw [natToChars_eq]
  exact if_pos h

theorem natToChars_length_ge : ∀ k n : Nat, 10 ^ k ≤ n → k + 1 ≤ (natToChars n).length := by
  intro k
  induction k with
  | zero =>
    intro n _
    have := natToChars_ne_nil n
    cases hl : natToChars n with
    | nil => exact absurd hl this
    | cons c cs => simp
  | succ k ih =>
    intro n hn
    have h10 : ¬n < 10 := by
      have : (10 : Nat) ^ 1 ≤ 10 ^ (k + 1) := Nat.pow_le_pow_right (by omega) (by omega)
      simp at this
      omega
    rw [natToChars_eq, if_neg h10]
    have hdiv : 10 ^ k ≤ n / 10 := by
      rw [Nat.le_div_iff_mul_le (by omega)]
      calc 10 ^ k * 10 = 10 ^ (k + 1) := by ring
        _ ≤ n := hn
    have := ih (n / 10) hdiv
    simp only [List.length_append, List.length_singleton]
    omega

theorem padZeros_of_le {l : List Char} {w : Nat} (h : w ≤ l.length) : padZeros w l = l := by
  unfold padZeros
  rw [Nat.sub_eq_zero_of_le h]
  rfl

theorem intStr_ne_empty (i : Int) : intStr i ≠ "" := by
  unfold intStr intToChars
  intro hc
  have hd : (String.mk (if i < 0 then '-' :: natToChars i.natAbs else natToChars i.toNat)).data
      = ("" : String).data := by rw [hc]
  simp only [String.data] at hd
  split at hd
  · simp at hd
  · exact natToChars_ne_nil _ hd

theorem fmtQtDate_ne_empty (t : Ymd) : fmtQtDate t ≠ "" := by
  unfold fmtQtDate
  intro hc
  have hd : (String.mk (padZeros 4 (intToChars t.y) ++ '-' :: (padZeros 2 (intToChars t.m) ++ '-' :: padZeros 2 (intToChars t.d)))).data
      = ("" : String).data := by rw [hc]
  simp at hd

theorem freshAppts_mem {start cid : Int} {ds : List String} :
    ∀ a ∈ freshAppts start cid ds,
      start ≤ a.id ∧ a.client_id = cid ∧ a.kind = "retorno" ∧ a.status = "agendado" ∧ a.date ∈ ds := by
  induction ds generalizing start with
  | nil => intro a ha; simp [freshAppts] at ha
  | cons d ds ih =>
    intro a ha
    unfold freshAppts at ha
    rcases List.mem_cons.mp ha with rfl | ha
    · exact ⟨le_refl _, rfl, rfl, rfl, List.mem_cons_self _ _⟩
    · obtain ⟨h1, h2, h3, h4, h5⟩ := ih a ha
      exact ⟨by omega, h2, h3, h4, List.mem_cons_of_mem _ h5⟩

theorem freshAppts_filter_sched {start cid : Int} {ds : List String} :
    (freshAppts start cid ds).filter (fun a => a.client_id == cid && a.status == "agendado")
      = freshAppts start cid ds := by
  induction ds generalizing start with
  | nil => rfl
  | cons d ds ih =>
    unfold freshAppts
    rw [List.filter_cons]
    simp only [beq_self_eq_true, Bool.and_self, if_pos]
    rw [ih]

theorem freshAppts_filter_unsched {start cid : Int} {ds : List String} :
    (freshAppts start cid ds).filter (fun a => !(a.client_id == cid && a.status == "agendado"))
      = [] := by
  induction ds generalizing start with
  | nil => rfl
  | cons d ds ih =>
    unfold freshAppts
    simp only [List.filter_cons, beq_self_eq_true, Bool.and_self, Bool.not_true,
      Bool.false_eq_true, if_false]
    exact ih

theorem freshAppts_map_core {start cid : Int} {ds : List String} :
    (freshAppts start cid ds).map (fun a => (a.date, a.kind, a.status))
      = ds.map (fun d => (d, "retorno", "agendado")) := by
  induction ds generalizing start with
  | nil => rfl
  | cons d ds ih =>
    unfold freshAppts
    simp only [List.map_cons]
    rw [ih]

theorem freshAppts_map_date {start cid : Int} {ds : List String} :
    (freshAppts start cid ds).map (fun a => a.date) = ds := by
  induction ds generalizing start with
  | nil => rfl
  | cons d ds ih =>
    unfold freshAppts
    simp only [List.map_cons]
    rw [ih]

theorem freshAppts_length {start cid : Int} {ds : List String} :
    (freshAppts start cid ds).length = ds.length := by
  induction ds generalizing start with
  | nil => rfl
  | cons d ds ih =>
    unfold freshAppts
    simp only [List.length_cons]
    rw [ih]

/-! ## Claim theorems -/

/-- C10: `human_date` is total; on any 4-2-2 zero-padded digit string
`yyyy-mm-dd` (year 1000..9999, so `yyyy` is the plain decimal rendering)
it returns the `dd/mm/yyyy` rendering, and it returns any unparsable
string unchanged. -/
theorem human_date_total_spec :
    (∀ t : Ymd, 1000 ≤ t.y → t.y ≤ 9999 → 0 ≤ t.m → t.m ≤ 99 → 0 ≤ t.d → t.d ≤ 99 →
      human_date (fmtQtDate t) =
        ⟨padZeros 2 (intToChars t.d)⟩ ++ "/" ++ ⟨padZeros 2 (intToChars t.m)⟩ ++ "/"
          ++ ⟨padZeros 4 (intToChars t.y)⟩) ∧
    (∀ s : String, parseDate3 s = none → human_date s = s) := by
  constructor
  · intro t hy1 hy2 hm1 hm2 hd1 hd2
    have hpad2 : ∀ x : Int, 0 ≤ x → x ≤ 99 → pad2Int x = ⟨padZeros 2 (intToChars x)⟩ := by
      intro x hx1 hx2
      unfold pad2Int
      by_cases hx10 : x < 10
      · rw [if_pos ⟨hx1, hx10⟩]
        have : intToChars x = natToChars x.toNat := by
          unfold intToChars
          rw [if_neg (by omega)]
        rw [this, natToChars_small (by omega)]
        rfl
      · rw [if_neg (by omega)]
        unfold intStr
        congr 1
        have : intToChars x = natToChars x.toNat := by
          unfold intToChars
          rw [if_neg (by omega)]
        rw [this]
        rw [padZeros_of_le (natToChars_length_ge 1 x.toNat (by omega))]
    have hpad4 : intStr t.y = ⟨padZeros 4 (intToChars t.y)⟩ := by
      unfold intStr
      congr 1
      have : intToChars t.y = natToChars t.y.toNat := by
        unfold intToChars
        rw [if_neg (by omega)]
      rw [this]
      rw [padZeros_of_le (natToChars_length_ge 3 t.y.toNat (by omega))]
    unfold human_date
    rw [parseDate3_fmtQtDate (by omega) hm1 hd1]
    dsimp only
    rw [hpad2 t.d hd1 hd2, hpad2 t.m hm1 hm2, hpad4]
  · intro s h
    unfold human_date
    rw [h]

/-- C10 witness: the spec's own example rendering, and an unparsable
string passing through unchanged. -/
theorem human_date_total_spec_witness :
    human_date "2024-06-01" = "01/06/2024" ∧ human_date "31/12/2024" = "31/12/2024" := by
  constructor
  · have h := human_date_total_spec.1 ⟨2024, 6, 1⟩ (by decide) (by decide) (by decide)
      (by decide) (by decide) (by decide)
    have he : fmtQtDate ⟨2024, 6, 1⟩ = "2024-06-01" := by decide
    rw [he] at h
    rw [h]
    decide
  · exact human_date_total_spec.2 "31/12/2024" (by decide)

/-- C7: saving with a name that strips to the empty string reports a
validation warning and leaves the database unchanged — no client row, no
appointment row. -/
theorem save_empty_name_aborts (f : Form) (db : DB) (h : pyStrip f.name = "") :
    save_client f db = (db, Outcome.validationWarn) := by
  unfold save_client
  simp only [h]
  rfl

def sampleForm0 : Form :=
  ⟨"", "   ", 0, "", some ⟨2024, 1, 1⟩, 0, 0, false, false, "", ["2024-02-01"]⟩

def sampleDb0 : DB := ⟨[], [], 1, 1⟩

/-- C7 witness: a whitespace-only name aborts the save on a concrete
database. -/
theorem save_empty_name_aborts_witness :
    save_client sampleForm0 sampleDb0 = (sampleDb0, Outcome.validationWarn) :=
  save_empty_name_aborts sampleForm0 sampleDb0 (by decide)

/-- C6 (code bug evaluation): the schema default for `plan_months` is 5,
not 2 (contradicting the inline comment `-- 1, 2, 3, 6, 12` and the
fallback 2 used by `fill_form_from_db` and `import_csv`), and `clear_form`
resets the plan combo to index 0, whose item is `"1"`, not 2. -/
theorem plan_defaults_eval :
    schemaDefaultPlanMonths = 5 ∧ (clear_form ⟨2025, 1, 1⟩).planIdx = 0 ∧
      currentPlanText (clear_form ⟨2025, 1, 1⟩) = "1" := by
  decide

/-- What the claim calls the companion file name: the chosen filename with
its `.csv` suffix replaced by `_consultas.csv`. -/
def csvSuffixCompanion (fn : String) : String :=
  ⟨fn.data.take (fn.data.length - 4) ++ ("_consultas.csv" : String).data⟩

def fsC8 : List (String × CsvFile) :=
  [("a.csv.csv", [clientsCsvHeader]), ("a_consultas.csv_consultas.csv", [apptsCsvHeader])]

def dbC8 : DB := ⟨[⟨1, "Ana", none, some "", none, 2, 0, 0, some "", 0⟩], [], 2, 1⟩

/-- C8 counterexample: for `a.csv.csv` the code replaces every occurrence
of `.csv`, so it checks `a_consultas.csv_consultas.csv`; with that file
present but the suffix-replaced companion `a.csv_consultas.csv` absent,
the import proceeds and destroys the existing rows instead of aborting. -/
theorem import_missing_companion_counterexample :
    csvSuffixCompanion "a.csv.csv" = "a.csv_consultas.csv" ∧
    List.lookup "a.csv_consultas.csv" fsC8 = none ∧
    (import_csv dbC8 fsC8 "a.csv.csv" true).2 = Outcome.ok ∧
    (import_csv dbC8 fsC8 "a.csv.csv" true).1.clients = [] ∧
    dbC8.clients ≠ [] := by
  decide

/-- C8 amended: when the file named by replacing every occurrence of
`.csv` in the chosen filename with `_consultas.csv` (the suffix
replacement, whenever `.csv` occurs only as the suffix) does not exist,
the import warns and aborts before any delete: the database is returned
unchanged. -/
theorem import_missing_companion_aborts (db : DB) (fs : List (String × CsvFile))
    (fn : String) (confirm : Bool)
    (h : List.lookup (pyReplace fn ".csv" "_consultas.csv") fs = none) :
    import_csv db fs fn confirm = (db, Outcome.missingFileWarn) := by
  unfold import_csv
  simp only [h]
  rfl

/-- C8 witness: a concrete import attempt with no companion file aborts
with the database unchanged. -/
theorem import_missing_companion_aborts_witness :
    import_csv dbC8 [] "b.csv" true = (dbC8, Outcome.missingFileWarn) :=
  import_missing_companion_aborts dbC8 [] "b.csv" true (by decide)

instance : IsTotal ClientRow tableLe := by
  constructor
  intro a b
  unfold tableLe
  rcases lt_trichotomy a.hidden b.hidden with h | h | h
  · exact Or.inl (Or.inl h)
  · rcases charsLeb_total (lowerStr a.name).data (lowerStr b.name).data with hn | hn
    · exact Or.inl (Or.inr ⟨h, hn⟩)
    · exact Or.inr (Or.inr ⟨h.symm, hn⟩)
  · exact Or.inr (Or.inl h)

instance : IsTrans ClientRow tableLe := by
  constructor
  intro a b c hab hbc
  unfold tableLe at hab hbc ⊢
  rcases hab with hab | ⟨hab1, hab2⟩
  · rcases hbc with hbc | ⟨hbc1, hbc2⟩
    · exact Or.inl (lt_trans hab hbc)
    · exact Or.inl (hbc1 ▸ hab)
  · rcases hbc with hbc | ⟨hbc1, hbc2⟩
    · exact Or.inl (hab1 ▸ hbc)
    · exact Or.inr ⟨hab1.trans hbc1,
        charsLeb_trans (lowerStr a.name).data (lowerStr b.name).data (lowerStr c.name).data hab2 hbc2⟩

/-- C9: the PDF body is the clients list — all of them, hidden included —
arranged in some order sorted by `hidden ASC, name COLLATE NOCASE ASC`;
each row's name cell carries the `" (OCULTO)"` suffix exactly for hidden
clients, and its `Próximas` cell is the comma-joined `human_date`
rendering of all of that client's scheduled dates in ascending order
(every scheduled appointment, no week window), or `"-"` when there are
none. -/
theorem pdf_report_spec (db : DB) :
    ∃ cs : List ClientRow, cs.Perm db.clients ∧ List.Sorted tableLe cs ∧
      pdf_data db =
        ["Cliente", "Idade", "WhatsApp", "Primeira Consulta", "Próximas", "Plano",
         "Retornos pagos", "Obs"] :: cs.map (pdf_row db) ∧
      ∀ c ∈ cs,
        (pdf_row db c).head? = some (c.name ++ (if c.hidden ≠ 0 then " (OCULTO)" else "")) ∧
        List.Sorted sqliteStrLe (scheduled_dates_asc db c.id) ∧
        (scheduled_dates_asc db c.id).Perm ((scheduledOf db c.id).map (fun a => a.date)) ∧
        (pdf_row db c)[4]? = some (if scheduled_dates_asc db c.id = [] then "-"
          else String.intercalate ", " ((scheduled_dates_asc db c.id).map human_date)) := by
  refine ⟨table_rows db, List.perm_insertionSort tableLe db.clients,
    List.sorted_insertionSort tableLe db.clients, rfl, ?_⟩
  intro c _
  refine ⟨rfl, List.sorted_insertionSort sqliteStrLe _, List.perm_insertionSort sqliteStrLe _, ?_⟩
  by_cases h : scheduled_dates_asc db c.id = []
  · simp [pdf_row, h]
  · have hm : ((scheduled_dates_asc db c.id).map human_date).isEmpty = false := by
      rw [List.isEmpty_eq_false_iff_exists_mem]
      cases hl : scheduled_dates_asc db c.id with
      | nil => exact absurd hl h
      | cons x xs => exact ⟨human_date x, by simp⟩
    simp [pdf_row, h, hm]

/-- C5: a hidden client is the subject of no weekly-digest block and is
not among the visible (`hidden = 0`) table rows, yet is retained in the
table, appears in the exported clients CSV file, and has a PDF report
row. -/
theorem hidden_client_spec (db : DB) (today : Ymd) (fn : String) (c : ClientRow)
    (hwf : WF db) (hc : c ∈ db.clients) (hh : c.hidden ≠ 0) :
    (∀ b ∈ week_blocks db today, b.1.id ≠ c.id) ∧
    c ∉ (table_rows db).filter (fun r => r.hidden == 0) ∧
    c ∈ table_rows db ∧
    serialize_client c ∈ (export_csv db fn).1.2 ∧
    pdf_row db c ∈ pdf_data db := by
  refine ⟨?_, ?_, ?_, ?_, ?_⟩
  · intro b hb hid
    rw [week_blocks, List.mem_filterMap] at hb
    obtain ⟨c', hc', hsome⟩ := hb
    have hmem : c' ∈ db.clients.filter (fun x => x.hidden == 0) :=
      (List.perm_insertionSort _ _).mem_iff.mp hc'
    have hc'db : c' ∈ db.clients := List.mem_of_mem_filter hmem
    have hc'h : c'.hidden = 0 := by
      have := List.of_mem_filter hmem
      simpa using this
    have hb1 : b.1 = c' := by
      by_cases he : (appts_in_week today (scheduled_dates_asc db c'.id)).isEmpty
      · rw [if_pos he] at hsome
        exact absurd hsome (by simp)
      · rw [if_neg he] at hsome
        have := Option.some.inj hsome
        rw [← this]
    have : c' = c := by
      obtain ⟨_, _, hnd, _⟩ := hwf
      exact List.inj_on_of_nodup_map hnd hc'db hc (by rw [← hb1, hid])
    rw [this] at hc'h
    exact hh hc'h
  · intro hmem
    have := List.of_mem_filter hmem
    simp at this
    exact hh this
  · exact (List.perm_insertionSort tableLe db.clients).mem_iff.mpr hc
  · exact List.mem_cons_of_mem _ (List.mem_map_of_mem serialize_client hc)
  · exact List.mem_cons_of_mem _ (List.mem_map_of_mem (pdf_row db)
      ((List.perm_insertionSort tableLe db.clients).mem_iff.mpr hc))

def dbC5 : DB :=
  ⟨[⟨1, "Zoe", none, some "", none, 2, 0, 0, some "", 1⟩], [], 2, 1⟩

/-- C5 witness: a concrete hidden client is absent from the digest and
visible table but present in export and PDF. -/
theorem hidden_client_spec_witness :
    (∀ b ∈ week_blocks dbC5 ⟨2024, 6, 1⟩, b.1.id ≠ 1) ∧
    (⟨1, "Zoe", none, some "", none, 2, 0, 0, some "", 1⟩ : ClientRow)
        ∉ (table_rows dbC5).filter (fun r => r.hidden == 0) ∧
    (⟨1, "Zoe", none, some "", none, 2, 0, 0, some "", 1⟩ : ClientRow) ∈ table_rows dbC5 ∧
    serialize_client ⟨1, "Zoe", none, some "", none, 2, 0, 0, some "", 1⟩
        ∈ (export_csv dbC5 "x.csv").1.2 ∧
    pdf_row dbC5 ⟨1, "Zoe", none, some "", none, 2, 0, 0, some "", 1⟩ ∈ pdf_data dbC5 :=
  hidden_client_spec dbC5 ⟨2024, 6, 1⟩ "x.csv" ⟨1, "Zoe", none, some "", none, 2, 0, 0, some "", 1⟩
    (by decide) (by decide) (by decide)

theorem plan_parses {f : Form} (h : f.planIdx < 5) :
    ∃ p : Int, pyIntS (currentPlanText f) = some p := by
  have h5 : f.planIdx = 0 ∨ f.planIdx = 1 ∨ f.planIdx = 2 ∨ f.planIdx = 3 ∨ f.planIdx = 4 := by
    omega
  unfold currentPlanText
  rcases h5 with h0 | h0 | h0 | h0 | h0 <;> rw [h0]
  · exact ⟨1, by decide⟩
  · exact ⟨2, by decide⟩
  · exact ⟨3, by decide⟩
  · exact ⟨6, by decide⟩
  · exact ⟨12, by decide⟩

/-- C1: update is a full replace of the selected client's scheduled
appointments: every row that is not a scheduled row of that client —
other clients' rows and this client's `'feito'`/`'cancelado'` rows —
survives unchanged (in order); every previously scheduled row of that
client is deleted; and the scheduled rows of that client afterwards are
exactly one `'retorno'`/`'agendado'` row per date in the submitted form
list, in order. -/
theorem update_full_replace (f : Form) (db : DB) (cid : Int)
    (hwf : WF db) (hcid : cid ≠ 0) (hplan : f.planIdx < 5) :
    ∃ db', update_selected f db (some cid) = (db', Outcome.ok) ∧
      db'.appts.filter (fun a => !(a.client_id == cid && a.status == "agendado"))
        = db.appts.filter (fun a => !(a.client_id == cid && a.status == "agendado")) ∧
      (∀ a ∈ db.appts, a.client_id = cid → a.status = "agendado" → a ∉ db'.appts) ∧
      (db'.appts.filter (fun a => a.client_id == cid && a.status == "agendado")).map
          (fun a => (a.date, a.kind, a.status))
        = f.nextList.map (fun d => (d, "retorno", "agendado")) := by
  obtain ⟨p, hp⟩ := plan_parses hplan
  have heq : update_selected f db (some cid) =
      ({ clients := db.clients.map (fun c =>
           if c.id == cid then
             { c with name := pyStrip f.name, age := some f.age,
                      whatsapp := some (pyStrip f.whats),
                      first_consult := some (qdate_to_str f.firstDate),
                      plan_months := p, paid_returns := f.paid,
                      rescheduled := b2i f.resched,
                      notes := some (pyStrip f.notes),
                      hidden := b2i f.hiddenChk }
           else c),
         appts := db.appts.filter (fun a => !(a.client_id == cid && a.status == "agendado"))
           ++ freshAppts db.nextApptId cid f.nextList,
         nextClientId := db.nextClientId,
         nextApptId := db.nextApptId + f.nextList.length }, Outcome.ok) := by
    unfold update_selected
    dsimp only
    rw [if_neg hcid, hp]
  refine ⟨_, heq, ?_, ?_, ?_⟩
  · dsimp only
    rw [List.filter_append, freshAppts_filter_unsched, List.filter_filter]
    simp only [Bool.and_self, List.append_nil]
  · intro a ha hacid hastat hmem
    dsimp only at hmem
    rcases List.mem_append.mp hmem with hmem | hmem
    · have := List.of_mem_filter hmem
      simp [hacid, hastat] at this
    · obtain ⟨hid, _, _, _, _⟩ := freshAppts_mem a hmem
      have := hwf.2.1 a ha
      omega
  · dsimp only
    rw [List.filter_append, freshAppts_filter_sched, List.filter_filter]
    have hfalse : (db.appts.filter (fun a =>
        (a.client_id == cid && a.status == "agendado") && !(a.client_id == cid && a.status == "agendado"))) = [] := by
      rw [List.filter_eq_nil_iff]
      intro a _
      simp
    rw [hfalse, List.nil_append, freshAppts_map_core]

def dbC1 : DB :=
  ⟨[⟨1, "Ana", none, some "", none, 2, 0, 0, some "", 0⟩],
   [⟨1, 1, "2024-05-01", "retorno", "feito"⟩,
    ⟨2, 1, "2024-06-01", "retorno", "agendado"⟩,
    ⟨3, 2, "2024-06-02", "retorno", "agendado"⟩], 2, 4⟩

def formC1 : Form :=
  ⟨"1", "Ana", 0, "", some ⟨2024, 1, 1⟩, 1, 0, false, false, "", ["2024-07-01"]⟩

/-- C1 witness: a concrete update replacing one scheduled row with the
submitted list while keeping the `'feito'` row and the other client's
row. -/
theorem update_full_replace_witness :
    ∃ db', update_selected formC1 dbC1 (some 1) = (db', Outcome.ok) ∧
      db'.appts.filter (fun a => !(a.client_id == 1 && a.status == "agendado"))
        = dbC1.appts.filter (fun a => !(a.client_id == 1 && a.status == "agendado")) ∧
      (∀ a ∈ dbC1.appts, a.client_id = 1 → a.status = "agendado" → a ∉ db'.appts) ∧
      (db'.appts.filter (fun a => a.client_id == 1 && a.status == "agendado")).map
          (fun a => (a.date, a.kind, a.status))
        = formC1.nextList.map (fun d => (d, "retorno", "agendado")) :=
  update_full_replace formC1 dbC1 1 (by decide) (by decide) (by decide)

theorem year_le_of_dateKey_le {a b : Ymd} (ha : validYmd a) (hb : validYmd b)
    (h : dateKey a ≤ dateKey b) : a.y ≤ b.y := by
  obtain ⟨_, ha2, ha3, ha4, ha5⟩ := ha
  obtain ⟨_, hb2, hb3, hb4, hb5⟩ := hb
  have hda := daysInMonth_bounds a.y a.m
  have hdb := daysInMonth_bounds b.y b.m
  unfold dateKey at h
  omega

theorem mem_scheduled_dates_asc {db : DB} {cid : Int} {a : ApptRow}
    (ha : a ∈ db.appts) (hacid : a.client_id = cid) (hastat : a.status = "agendado") :
    a.date ∈ scheduled_dates_asc db cid := by
  unfold scheduled_dates_asc
  rw [(List.perm_insertionSort sqliteStrLe _).mem_iff]
  exact List.mem_map_of_mem _ (List.mem_filter.mpr ⟨ha, by simp [hacid, hastat]⟩)

theorem mem_appts_in_week {today : Ymd} {ds : List String} {s : String} {t : Ymd}
    (hs : s ∈ ds) (hp : parseDate3 s = some t) (hok : pyDateOk t)
    (h1 : dateLe today t) (h2 : dateLe t (addDays today 7)) :
    human_date s ∈ appts_in_week today ds := by
  unfold appts_in_week
  rw [List.mem_filterMap]
  refine ⟨s, hs, ?_⟩
  rw [hp]
  dsimp only
  rw [if_pos ⟨hok, h1, h2⟩]

theorem mem_digest_clients {db : DB} {c : ClientRow} (hc : c ∈ db.clients)
    (hh : c.hidden = 0) : c ∈ digest_clients db := by
  unfold digest_clients
  rw [(List.perm_insertionSort _ _).mem_iff]
  exact List.mem_filter.mpr ⟨hc, by simp [hh]⟩

theorem week_blocks_of_nonempty {db : DB} {today : Ymd} {c : ClientRow}
    (hc : c ∈ db.clients) (hh : c.hidden = 0)
    (hne : (appts_in_week today (scheduled_dates_asc db c.id)).isEmpty = false) :
    (c, appts_in_week today (scheduled_dates_asc db c.id)) ∈ week_blocks db today := by
  unfold week_blocks
  rw [List.mem_filterMap]
  refine ⟨c, mem_digest_clients hc hh, ?_⟩
  dsimp only
  rw [hne]
  rfl

theorem no_week_block_of_empty {db : DB} {today : Ymd} {c : ClientRow}
    (hwf : WF db) (hc : c ∈ db.clients)
    (hemp : appts_in_week today (scheduled_dates_asc db c.id) = []) :
    ∀ b ∈ week_blocks db today, b.1.id ≠ c.id := by
  intro b hb hid
  rw [week_blocks, List.mem_filterMap] at hb
  obtain ⟨c', hc', hsome⟩ := hb
  have hc'db : c' ∈ db.clients :=
    List.mem_of_mem_filter ((List.perm_insertionSort _ _).mem_iff.mp hc')
  have hb1 : b.1 = c' := by
    by_cases he : (appts_in_week today (scheduled_dates_asc db c'.id)).isEmpty
    · rw [if_pos he] at hsome
      exact absurd hsome (by simp)
    · rw [if_neg he] at hsome
      have := Option.some.inj hsome
      rw [← this]
  have hcc : c' = c := by
    obtain ⟨_, _, hnd, _⟩ := hwf
    exact List.inj_on_of_nodup_map hnd hc'db hc (by rw [← hb1, hid])
  have he' : (appts_in_week today (scheduled_dates_asc db c'.id)).isEmpty = false := by
    by_cases he : (appts_in_week today (scheduled_dates_asc db c'.id)).isEmpty
    · rw [if_pos he] at hsome
      exact absurd hsome (by simp)
    · simpa using he
  rw [hcc, hemp] at he'
  simp at he'

/-- C4: the weekly-digest window is inclusive at both ends.  For every
non-hidden client: a scheduled appointment whose date string parses to
`today` or to `today + 7 days` puts a block with that rendered date into
the digest; a client whose only scheduled date parses to the day before
`today` or the day after `today + 7` gets no block; and a client whose
only scheduled date does not parse gets no block (the malformed string is
skipped, nothing raises). -/
theorem week_window_boundaries (db : DB) (today : Ymd) (c : ClientRow)
    (hwf : WF db) (hc : c ∈ db.clients) (hh : c.hidden = 0)
    (hv : validYmd today) (hy9 : (addDays today 8).y ≤ 9999) :
    (∀ a ∈ db.appts, a.client_id = c.id → a.status = "agendado" →
        parseDate3 a.date = some today →
        ∃ b ∈ week_blocks db today, b.1.id = c.id ∧ human_date a.date ∈ b.2) ∧
    (∀ a ∈ db.appts, a.client_id = c.id → a.status = "agendado" →
        parseDate3 a.date = some (addDays today 7) →
        ∃ b ∈ week_blocks db today, b.1.id = c.id ∧ human_date a.date ∈ b.2) ∧
    (∀ s, scheduled_dates_asc db c.id = [s] → parseDate3 s = some (prevDay today) →
        ∀ b ∈ week_blocks db today, b.1.id ≠ c.id) ∧
    (∀ s, scheduled_dates_asc db c.id = [s] → parseDate3 s = some (addDays today 8) →
        ∀ b ∈ week_blocks db today, b.1.id ≠ c.id) ∧
    (∀ s, scheduled_dates_asc db c.id = [s] → parseDate3 s = none →
        ∀ b ∈ week_blocks db today, b.1.id ≠ c.id) := by
  have hv7 : validYmd (addDays today 7) := validYmd_addDays hv 7
  have hv8 : validYmd (addDays today 8) := validYmd_addDays hv 8
  have hk78 : dateKey (addDays today 7) < dateKey (addDays today 8) :=
    dateKey_addDays_lt_succ hv 7
  have hy7 : (addDays today 7).y ≤ 9999 :=
    le_trans (year_le_of_dateKey_le hv7 hv8 (le_of_lt hk78)) hy9
  have hty : today.y ≤ 9999 :=
    le_trans (year_le_of_dateKey_le hv hv8 (dateKey_le_addDays hv 8)) hy9
  have hincl : ∀ t : Ymd, pyDateOk t → dateLe today t → dateLe t (addDays today 7) →
      ∀ a ∈ db.appts, a.client_id = c.id → a.status = "agendado" →
        parseDate3 a.date = some t →
        ∃ b ∈ week_blocks db today, b.1.id = c.id ∧ human_date a.date ∈ b.2 := by
    intro t hok h1 h2 a ha hacid hastat hp
    have hdm := mem_scheduled_dates_asc ha hacid hastat
    have hiw := mem_appts_in_week hdm hp hok h1 h2
    have hne : (appts_in_week today (scheduled_dates_asc db c.id)).isEmpty = false := by
      rw [List.isEmpty_eq_false_iff_exists_mem]
      exact ⟨_, hiw⟩
    exact ⟨(c, appts_in_week today (scheduled_dates_asc db c.id)),
      week_blocks_of_nonempty hc hh hne, rfl, hiw⟩
  have hexcl : ∀ s : String, scheduled_dates_asc db c.id = [s] →
      (match parseDate3 s with
       | none => (none : Option String)
       | some t => if pyDateOk t ∧ dateLe today t ∧ dateLe t (addDays today 7)
           then some (human_date s) else none) = none →
      ∀ b ∈ week_blocks db today, b.1.id ≠ c.id := by
    intro s hsch harm
    apply no_week_block_of_empty hwf hc
    rw [hsch]
    unfold appts_in_week
    simp only [List.filterMap]
    rw [harm]
  refine ⟨?_, ?_, ?_, ?_, ?_⟩
  · exact fun a ha h1 h2 h3 =>
      hincl today ⟨hv, hty⟩ (le_refl _) (dateKey_le_addDays hv 7) a ha h1 h2 h3
  · exact fun a ha h1 h2 h3 =>
      hincl (addDays today 7) ⟨hv7, hy7⟩ (dateKey_le_addDays hv 7) (le_refl _) a ha h1 h2 h3
  · intro s hsch hp
    apply hexcl s hsch
    rw [hp]
    dsimp only
    rw [if_neg]
    intro hcon
    have := hcon.2.1
    have hlt := dateKey_prevDay_lt hv
    unfold dateLe at this
    omega
  · intro s hsch hp
    apply hexcl s hsch
    rw [hp]
    dsimp only
    rw [if_neg]
    intro hcon
    have := hcon.2.2
    unfold dateLe at this
    omega
  · intro s hsch hp
    apply hexcl s hsch
    rw [hp]

def dbC4 : DB :=
  ⟨[⟨1, "Bea", some 30, some "+5511999990000", some "2024-05-01", 2, 0, 0, some "", 0⟩],
   [⟨1, 1, "2024-06-08", "retorno", "agendado"⟩], 2, 2⟩

/-- C4 witness: the spec's own example — today 2024-06-01, an appointment
on 2024-06-08 (= today + 7) is included in the digest. -/
theorem week_window_boundaries_witness :
    ∃ b ∈ week_blocks dbC4 ⟨2024, 6, 1⟩, b.1.id = 1 ∧ human_date "2024-06-08" ∈ b.2 :=
  (week_window_boundaries dbC4 ⟨2024, 6, 1⟩
      ⟨1, "Bea", some 30, some "+5511999990000", some "2024-05-01", 2, 0, 0, some "", 0⟩
      (by decide) (by decide) (by decide) (by decide) (by decide)).2.1
    ⟨1, 1, "2024-06-08", "retorno", "agendado"⟩ (by decide) (by decide) (by decide) (by decide)

theorem csvOptStr_some {v : Option String} (h : v ≠ none) : some (csvOptStr v) = v := by
  cases v with
  | none => exact absurd rfl h
  | some s => rfl

theorem parseOptIntField_csvOptInt (v : Option Int) :
    parseOptIntField (some (csvOptInt v)) = some v := by
  cases v with
  | none => rfl
  | some i =>
    show parseOptIntField (some (intStr i)) = some (some i)
    unfold parseOptIntField
    dsimp only
    rw [if_neg (intStr_ne_empty i), pyIntS_intStr]
    rfl

theorem parseIntFieldOr_intStr (x d : Int) : parseIntFieldOr (some (intStr x)) d = some x := by
  unfold parseIntFieldOr
  dsimp only
  rw [if_neg (intStr_ne_empty x), pyIntS_intStr]

theorem parseStrOrNone_csvOptStr {v : Option String} (h : v ≠ some "") :
    parseStrOrNone (some (csvOptStr v)) = v := by
  cases v with
  | none => rfl
  | some s =>
    show parseStrOrNone (some s) = some s
    unfold parseStrOrNone
    dsimp only
    rw [if_neg (fun hc : s = "" => h (by rw [hc]))]

theorem parse_import_client_serialize {c : ClientRow}
    (hw : c.whatsapp ≠ none) (hn : c.notes ≠ none) (hf : c.first_consult ≠ some "") :
    parse_import_client clientsCsvHeader (serialize_client c) = some c := by
  have h0 : dictGet clientsCsvHeader (serialize_client c) "id" = some (intStr c.id) := rfl
  have h1 : dictGet clientsCsvHeader (serialize_client c) "name" = some c.name := rfl
  have h2 : dictGet clientsCsvHeader (serialize_client c) "age" = some (csvOptInt c.age) := rfl
  have h3 : dictGet clientsCsvHeader (serialize_client c) "whatsapp"
      = some (csvOptStr c.whatsapp) := rfl
  have h4 : dictGet clientsCsvHeader (serialize_client c) "first_consult"
      = some (csvOptStr c.first_consult) := rfl
  have h5 : dictGet clientsCsvHeader (serialize_client c) "plan_months"
      = some (intStr c.plan_months) := rfl
  have h6 : dictGet clientsCsvHeader (serialize_client c) "paid_returns"
      = some (intStr c.paid_returns) := rfl
  have h7 : dictGet clientsCsvHeader (serialize_client c) "rescheduled"
      = some (intStr c.rescheduled) := rfl
  have h8 : dictGet clientsCsvHeader (serialize_client c) "notes"
      = some (csvOptStr c.notes) := rfl
  have h9 : dictGet clientsCsvHeader (serialize_client c) "hidden" = some (intStr c.hidden) := rfl
  unfold parse_import_client
  rw [h0, h1, h2, h3, h4, h5, h6, h7, h8, h9]
  simp only [Option.some_bind, pyIntS_intStr, parseOptIntField_csvOptInt,
    parseIntFieldOr_intStr, parseStrOrNone_csvOptStr hf, csvOptStr_some hw, csvOptStr_some hn,
    Option.bind_some]
  rfl

theorem parse_import_appt_serialize (a : ApptRow) :
    parse_import_appt apptsCsvHeader (serialize_appt a)
      = some (a.client_id, a.date, a.kind, a.status) := by
  have h0 : dictGet apptsCsvHeader (serialize_appt a) "client_id"
      = some (intStr a.client_id) := rfl
  have h1 : dictGet apptsCsvHeader (serialize_appt a) "date" = some a.date := rfl
  have h2 : dictGet apptsCsvHeader (serialize_appt a) "kind" = some a.kind := rfl
  have h3 : dictGet apptsCsvHeader (serialize_appt a) "status" = some a.status := rfl
  unfold parse_import_appt
  rw [h0, h1, h2, h3]
  simp only [Option.some_bind, pyIntS_intStr, Option.bind_some]
  rfl

theorem optMapList_map {g : α → β} {f : β → Option γ} {k : α → γ} {l : List α}
    (h : ∀ x ∈ l, f (g x) = some (k x)) : optMapList f (l.map g) = some (l.map k) := by
  induction l with
  | nil => rfl
  | cons x xs ih =>
    simp only [List.map_cons]
    unfold optMapList
    rw [h x (List.mem_cons_self _ _), ih (fun y hy => h y (List.mem_cons_of_mem _ hy))]

theorem freshApptRows_map {start : Int} {qs : List (Int × String × String × String)} :
    (freshApptRows start qs).map (fun a => (a.client_id, a.date, a.kind, a.status)) = qs := by
  induction qs generalizing start with
  | nil => rfl
  | cons q qs ih =>
    unfold freshApptRows
    simp only [List.map_cons]
    rw [ih]

def dbC2 : DB :=
  ⟨[⟨1, "Ana", none, some "", some "2024-01-02", 2, 0, 0, none, 0⟩],
   [⟨1, 1, "2024-02-03", "retorno", "agendado"⟩], 2, 2⟩

/-- C2 counterexample: exporting this database and importing the two files
back succeeds but does not reproduce the same row sets.  The appointment
file carries no id column, the import deletes and re-inserts, and
AUTOINCREMENT never reuses ids, so the appointment id changes from 1 to 2;
the client's SQL NULL `notes` also comes back as the empty string. -/
theorem csv_round_trip_counterexample :
    (csv_round_trip dbC2).2 = Outcome.ok ∧
    (csv_round_trip dbC2).1.appts.map (fun a => a.id) = [2] ∧
    dbC2.appts.map (fun a => a.id) = [1] ∧
    (csv_round_trip dbC2).1.appts ≠ dbC2.appts ∧
    (csv_round_trip dbC2).1.clients ≠ dbC2.clients := by
  decide

/-- C2 amended: for every database state in which no client row conflates
SQL NULL with the empty string (`whatsapp` and `notes` not NULL,
`first_consult` not the empty string — the CSV encoding cannot tell those
apart), export followed by import with no intervening edits reproduces
the client rows exactly (ids included) and the appointment rows up to
their ids (`client_id`, `date`, `kind`, `status`, in order): appointment
ids are not exported and are freshly assigned by AUTOINCREMENT on
import. -/
theorem csv_round_trip_amended (db : DB)
    (hcl : ∀ c ∈ db.clients, c.whatsapp ≠ none ∧ c.notes ≠ none ∧ c.first_consult ≠ some "") :
    (csv_round_trip db).2 = Outcome.ok ∧
    (csv_round_trip db).1.clients = db.clients ∧
    (csv_round_trip db).1.appts.map (fun a => (a.client_id, a.date, a.kind, a.status))
      = db.appts.map (fun a => (a.client_id, a.date, a.kind, a.status)) := by
  have hcf : parseClientsFile (clientsCsvHeader :: db.clients.map serialize_client)
      = some db.clients := by
    unfold parseClientsFile
    have := optMapList_map (k := fun c => c) (fun c hc =>
      parse_import_client_serialize (hcl c hc).1 (hcl c hc).2.1 (hcl c hc).2.2)
    simpa using this
  have haf : parseApptsFile (apptsCsvHeader :: db.appts.map serialize_appt)
      = some (db.appts.map (fun a => (a.client_id, a.date, a.kind, a.status))) := by
    unfold parseApptsFile
    exact optMapList_map (fun a _ => parse_import_appt_serialize a)
  have hrep : pyReplace "clientes.csv" ".csv" "_consultas.csv" = "clientes_consultas.csv" := by
    decide
  have hlk2 : ∀ X Y : CsvFile,
      List.lookup "clientes_consultas.csv" [("clientes.csv", X), ("clientes_consultas.csv", Y)]
        = some Y := by
    intro X Y
    simp [List.lookup]
  have hlk1 : ∀ X Y : CsvFile,
      List.lookup "clientes.csv" [("clientes.csv", X), ("clientes_consultas.csv", Y)]
        = some X := by
    intro X Y
    simp [List.lookup]
  have hrt : csv_round_trip db =
      ({ clients := db.clients,
         appts := freshApptRows db.nextApptId
           (db.appts.map (fun a => (a.client_id, a.date, a.kind, a.status))),
         nextClientId := bumpSeq db.nextClientId db.clients,
         nextApptId := db.nextApptId
           + (db.appts.map (fun a => (a.client_id, a.date, a.kind, a.status))).length },
       Outcome.ok) := by
    unfold csv_round_trip export_csv import_csv
    dsimp only
    rw [hrep, hlk2, hlk1]
    rw [if_neg (by simp)]
    rw [if_neg (by simp)]
    dsimp only
    rw [hcf, haf]
  rw [hrt]
  exact ⟨rfl, rfl, by dsimp only; rw [freshApptRows_map]⟩

def dbC2ok : DB :=
  ⟨[⟨1, "Bea", some 30, some "+55", none, 2, 0, 0, some "", 0⟩],
   [⟨1, 1, "2024-06-04", "retorno", "agendado"⟩], 2, 2⟩

/-- C2 witness: the amended round trip on a concrete database. -/
theorem csv_round_trip_amended_witness :
    (csv_round_trip dbC2ok).2 = Outcome.ok ∧
    (csv_round_trip dbC2ok).1.clients = dbC2ok.clients ∧
    (csv_round_trip dbC2ok).1.appts.map (fun a => (a.client_id, a.date, a.kind, a.status))
      = dbC2ok.appts.map (fun a => (a.client_id, a.date, a.kind, a.status)) :=
  csv_round_trip_amended dbC2ok (by decide)

theorem pyOrOS_some_empty (s : String) : pyOrOS (some s) "" = s := by
  unfold pyOrOS
  by_cases h : s = "" <;> simp [h]

theorem pyOrOI_some_zero (x : Int) : pyOrOI (some x) 0 = x := by
  unfold pyOrOI
  by_cases h : x = 0 <;> simp [h]

theorem pyOrS_empty (s : String) : pyOrS s "" = s := by
  unfold pyOrS
  by_cases h : s = "" <;> simp [h]

theorem spinClamp_id {lo hi x : Int} (h1 : lo ≤ x) (h2 : x ≤ hi) : spinClamp lo hi x = x := by
  unfold spinClamp
  omega

theorem b2i_ne_zero (b : Bool) : (b2i b != 0) = b := by
  cases b <;> rfl

/-- The round trip of the plan combo through `str(plan or 2)` and
`setCurrentText`: reading the selected item, storing its integer, and
re-selecting by its rendered text lands on the same index. -/
theorem combo_round (j : Nat) (hj : j < 5) (i : Nat) :
    ∃ p : Int, pyIntS (planItems.getD j "") = some p ∧
      comboSetText i (intStr (pyOrI p 2)) = j := by
  have h5 : j = 0 ∨ j = 1 ∨ j = 2 ∨ j = 3 ∨ j = 4 := by omega
  rcases h5 with h0 | h0 | h0 | h0 | h0 <;> subst h0
  · exact ⟨1, by decide, rfl⟩
  · exact ⟨2, by decide, rfl⟩
  · exact ⟨3, by decide, rfl⟩
  · exact ⟨6, by decide, rfl⟩
  · exact ⟨12, by decide, rfl⟩

theorem filter_not_self (l : List ApptRow) (P : ApptRow → Bool) :
    (l.filter (fun a => !P a)).filter P = [] := by
  rw [List.filter_filter, List.filter_eq_nil_iff]
  intro a _
  simp

theorem sort_strings_idem (l : List String) :
    List.insertionSort sqliteStrLe (List.insertionSort sqliteStrLe l)
      = List.insertionSort sqliteStrLe l :=
  List.eq_of_perm_of_sorted (List.perm_insertionSort sqliteStrLe _)
    (List.sorted_insertionSort sqliteStrLe _) (List.sorted_insertionSort sqliteStrLe _)

/-- C3: saving a fresh client, loading it back into the form by a
double-click, and pressing Update with nothing edited leaves the stored
client row and its scheduled appointments unchanged: same field values,
same ascending date list, same row count.  The hypotheses are the widget
invariants the real form guarantees (name/whatsapp/notes already
stripped, spin boxes in range, a valid combo index, a valid date edit)
and the SQLite invariants of the starting database. -/
theorem save_load_update_roundtrip (db0 : DB) (f : Form) (t0 : Ymd) (g0 : Form)
    (hwf : WF db0) (hpos : 0 < db0.nextClientId)
    (hfresh : ∀ a ∈ db0.appts, a.client_id ≠ db0.nextClientId)
    (hname : pyStrip f.name = f.name) (hne : f.name ≠ "")
    (hwhats : pyStrip f.whats = f.whats) (hnotes : pyStrip f.notes = f.notes)
    (hage : 0 ≤ f.age ∧ f.age ≤ 120) (hpaid : 0 ≤ f.paid ∧ f.paid ≤ 12)
    (hplan : f.planIdx < 5)
    (hfd : f.firstDate = some t0) (ht0 : validYmd t0) :
    ∃ db1, save_client f db0 = (db1, Outcome.ok) ∧
      ∃ db2, update_selected (fill_form_from_db g0 db1 db0.nextClientId) db1
          (some db0.nextClientId) = (db2, Outcome.ok) ∧
        db2.clients.find? (fun c => c.id == db0.nextClientId)
          = db1.clients.find? (fun c => c.id == db0.nextClientId) ∧
        scheduled_dates_asc db2 db0.nextClientId = scheduled_dates_asc db1 db0.nextClientId ∧
        (scheduledOf db2 db0.nextClientId).length
          = (scheduledOf db1 db0.nextClientId).length := by
  obtain ⟨p, hp, hcombo⟩ := combo_round f.planIdx hplan g0.planIdx
  have hpf : pyIntS (currentPlanText f) = some p := hp
  set cid := db0.nextClientId with hcid
  have hcid0 : cid ≠ 0 := by omega
  set ROW : ClientRow :=
    ⟨cid, f.name, some f.age, some f.whats, some (qdate_to_str (some t0)),
     p, f.paid, b2i f.resched, some f.notes, b2i f.hiddenChk⟩ with hROW
  set NEWS := freshAppts db0.nextApptId cid f.nextList with hNEWS
  set DB1 : DB :=
    { clients := db0.clients ++ [ROW], appts := db0.appts ++ NEWS,
      nextClientId := cid + 1,
      nextApptId := db0.nextApptId + f.nextList.length } with hDB1
  have hsave : save_client f db0 = (DB1, Outcome.ok) := by
    unfold save_client
    dsimp only
    rw [hname]
    rw [if_neg hne, hpf]
    dsimp only
    rw [hwhats, hnotes, hfd]
  have hfind1 : DB1.clients.find? (fun c => c.id == cid) = some ROW := by
    show (db0.clients ++ [ROW]).find? (fun c => c.id == cid) = some ROW
    rw [List.find?_append]
    have hn : db0.clients.find? (fun c => c.id == cid) = none := by
      rw [List.find?_eq_none]
      intro c hc
      have := hwf.1 c hc
      simp only [beq_iff_eq]
      omega
    rw [hn]
    simp
  -- the scheduled rows of the fresh client in DB1 are exactly the new ones
  have hsched1 : scheduledOf DB1 cid = NEWS := by
    show (db0.appts ++ NEWS).filter _ = NEWS
    rw [List.filter_append]
    have h0 : db0.appts.filter (fun a => a.client_id == cid && a.status == "agendado") = [] := by
      rw [List.filter_eq_nil_iff]
      intro a ha
      have := hfresh a ha
      simp only [Bool.and_eq_true, beq_iff_eq]
      intro hcon
      exact this hcon.1
    rw [h0, List.nil_append, hNEWS, freshAppts_filter_sched]
  have hdates1 : scheduled_dates_asc DB1 cid
      = List.insertionSort sqliteStrLe f.nextList := by
    unfold scheduled_dates_asc
    rw [hsched1, hNEWS, freshAppts_map_date]
  -- the filled form
  set SORT := List.insertionSort sqliteStrLe f.nextList with hSORT
  have hfill : fill_form_from_db g0 DB1 cid =
      { idText := intStr cid, name := f.name, age := f.age, whats := f.whats,
        firstDate := some t0, planIdx := f.planIdx, paid := f.paid,
        resched := f.resched, hiddenChk := f.hiddenChk, notes := f.notes,
        nextList := SORT } := by
    unfold fill_form_from_db
    rw [hfind1]
    dsimp only
    rw [hdates1]
    have hq : str_to_qdate (pyOrOS (some (qdate_to_str (some t0))) "") = some t0 := by
      rw [pyOrOS_some_empty]
      show str_to_qdate (fmtQtDate t0) = some t0
      exact str_to_qdate_fmtQtDate ht0
    rw [hq]
    dsimp only
    rw [hcombo]
    rw [pyOrS_empty]
    simp only [pyOrOS_some_empty, pyOrOI_some_zero, b2i_ne_zero]
    rw [spinClamp_id hage.1 hage.2, spinClamp_id hpaid.1 hpaid.2]
  set KEPT := DB1.appts.filter (fun a => !(a.client_id == cid && a.status == "agendado"))
    with hKEPT
  set NEWS2 := freshAppts DB1.nextApptId cid SORT with hNEWS2
  set updFn : ClientRow → ClientRow := (fun c =>
    if c.id == cid then
      { c with name := f.name, age := some f.age,
               whatsapp := some f.whats,
               first_consult := some (qdate_to_str (some t0)),
               plan_months := p, paid_returns := f.paid,
               rescheduled := b2i f.resched,
               notes := some f.notes,
               hidden := b2i f.hiddenChk }
    else c) with hupdFn
  set DB2 : DB :=
    { clients := DB1.clients.map updFn,
      appts := KEPT ++ NEWS2,
      nextClientId := DB1.nextClientId,
      nextApptId := DB1.nextApptId + SORT.length } with hDB2
  have hupd : update_selected (fill_form_from_db g0 DB1 cid) DB1 (some cid)
      = (DB2, Outcome.ok) := by
    rw [hfill]
    unfold update_selected currentPlanText
    dsimp only
    rw [if_neg hcid0, hp]
    dsimp only
    rw [hname, hwhats, hnotes]
  refine ⟨DB1, hsave, DB2, hupd, ?_, ?_, ?_⟩
  · -- the stored client row is unchanged
    have hfind2 : DB2.clients.find? (fun c => c.id == cid) = some ROW := by
      show (DB1.clients.map updFn).find? (fun c => c.id == cid) = some ROW
      have hmap : DB1.clients.map updFn = db0.clients.map updFn ++ [updFn ROW] := by
        show (db0.clients ++ [ROW]).map updFn = _
        rw [List.map_append]
        rfl
      rw [hmap, List.find?_append]
      have hn : (db0.clients.map updFn).find? (fun c => c.id == cid) = none := by
        rw [List.find?_eq_none]
        intro x hx
        rw [List.mem_map] at hx
        obtain ⟨c, hc, rfl⟩ := hx
        have hlt := hwf.1 c hc
        have hne' : (c.id == cid) = false := by
          simp only [beq_eq_false_iff_ne, ne_eq]
          omega
        have hcc : updFn c = c := by
          rw [hupdFn]
          dsimp only
          rw [if_neg (by rw [hne']; simp)]
        rw [hcc, hne']
        simp
      rw [hn]
      have hrow : updFn ROW = ROW := by
        rw [hupdFn]
        dsimp only
        rw [if_pos (by simp)]
      rw [hrow]
      simp
    rw [hfind2, hfind1]
  · -- the scheduled dates are unchanged
    have hsched2 : scheduledOf DB2 cid = NEWS2 := by
      show (KEPT ++ NEWS2).filter _ = NEWS2
      rw [List.filter_append]
      rw [hKEPT, filter_not_self, List.nil_append, hNEWS2, freshAppts_filter_sched]
    have hdates2 : scheduled_dates_asc DB2 cid = SORT := by
      unfold scheduled_dates_asc
      rw [hsched2, hNEWS2, freshAppts_map_date, hSORT, sort_strings_idem]
    rw [hdates2, hdates1]
  · -- the scheduled row count is unchanged
    have hsched2 : scheduledOf DB2 cid = NEWS2 := by
      show (KEPT ++ NEWS2).filter _ = NEWS2
      rw [List.filter_append]
      rw [hKEPT, filter_not_self, List.nil_append, hNEWS2, freshAppts_filter_sched]
    rw [hsched2, hsched1, hNEWS2, hNEWS, freshAppts_length, freshAppts_length, hSORT]
    exact (List.perm_insertionSort sqliteStrLe f.nextList).length_eq

def formC3 : Form :=
  ⟨"", "Ana", 30, "+5511988887777", some ⟨2024, 5, 1⟩, 1, 2, true, false, "obs",
   ["2024-07-01", "2024-06-15"]⟩

/-- C3 witness: a concrete save, reload and update leaving the stored row
and its two scheduled dates unchanged. -/
theorem save_load_update_roundtrip_witness :
    ∃ db1, save_client formC3 sampleDb0 = (db1, Outcome.ok) ∧
      ∃ db2, update_selected (fill_form_from_db (clear_form ⟨2024, 5, 2⟩) db1
          sampleDb0.nextClientId) db1 (some sampleDb0.nextClientId) = (db2, Outcome.ok) ∧
        db2.clients.find? (fun c => c.id == sampleDb0.nextClientId)
          = db1.clients.find? (fun c => c.id == sampleDb0.nextClientId) ∧
        scheduled_dates_asc db2 sampleDb0.nextClientId
          = scheduled_dates_asc db1 sampleDb0.nextClientId ∧
        (scheduledOf db2 sampleDb0.nextClientId).length
          = (scheduledOf db1 sampleDb0.nextClientId).length :=
  save_load_update_roundtrip sampleDb0 formC3 ⟨2024, 5, 1⟩ (clear_form ⟨2024, 5, 2⟩)
    (by decide) (by decide) (by decide) (by decide) (by decide) (by decide) (by decide)
    (by decide) (by decide) (by decide) (by decide) (by decide)

end AppNutri
